import Mathlib

/-!
# Verification of the exotik-dices core logic

Shallow embedding of the face-reference resolver, the loop-prevention
predicate, the filesystem/cache reconciler (`syncDiceFromFilesystem`)
and the editor save path (`_updateObject`) of the exotik-dices module,
together with proofs of the specified properties.

JavaScript `Set` objects of visited indices are modelled as `Finset Int`,
JavaScript numbers used as indices as `Int` (the code only ever compares
them and bounds-checks them), and `Map` objects as association lists with
JavaScript `Map.set` semantics (an existing key keeps its position).
-/

namespace ExotikDices

/-- One face of a die: an optional reference to another face index plus
four asset attributes (`label`, `texture`, `bump`, `icon`).  Mirrors the
faceMap entries built by the editor and read from `dice.json`. -/
structure Face where
  refFace : Option Int
  label : String
  texture : String
  bump : String
  icon : String
deriving DecidableEq, Repr

/-- The set `{0, 1, ..., n-1}` as a `Finset Int`; used only as a
termination measure for the visited-set recursions. -/
def intRange (n : Nat) : Finset Int :=
  (Finset.range n).image (fun k : Nat => (k : Int))

theorem mem_intRange {n : Nat} {i : Int} (h0 : 0 ≤ i) (hn : i < (n : Int)) :
    i ∈ intRange n := by
  refine Finset.mem_image.mpr ⟨i.toNat, Finset.mem_range.mpr ?_, Int.toNat_of_nonneg h0⟩
  omega

/-- Inserting a fresh in-bounds index into the visited set strictly shrinks
the set of in-bounds indices not yet visited: the termination measure of
both visited-set walks. -/
theorem card_sdiff_insert_lt {n : Nat} {v : Finset Int} {c : Int}
    (h0 : 0 ≤ c) (hn : c < (n : Int)) (hv : c ∉ v) :
    ((intRange n) \ insert c v).card < ((intRange n) \ v).card := by
  have hsub : intRange n \ insert c v ⊆ intRange n \ v :=
    Finset.sdiff_subset_sdiff (Finset.Subset.refl _) (Finset.subset_insert _ _)
  have hmem : c ∈ intRange n \ v :=
    Finset.mem_sdiff.mpr ⟨mem_intRange h0 hn, hv⟩
  have hout : c ∉ intRange n \ insert c v := by simp
  exact Finset.card_lt_card ⟨hsub, fun hc => hout (hc hmem)⟩

/--
Embedding of `resolveFace(faceMap, index, visited)`
(src/scripts/ExotikDiceConfig.js, lines 52-60):

```js
export function resolveFace(faceMap, index, visited = new Set()) {
    if (index == null || index < 0 || index >= faceMap.length) return null;
    const face = faceMap[index];
    if (!face) return null;
    if (face.refFace == null) return face;
    if (visited.has(index)) return null;
    visited.add(index);
    return resolveFace(faceMap, face.refFace, visited);
}
```
-/
def resolveFace (faceMap : List Face) (index : Option Int) (visited : Finset Int) :
    Option Face :=
  match index with
  | none => none
  | some i =>
    if hb : i < 0 ∨ (faceMap.length : Int) ≤ i then none
    else
      match faceMap.get? i.toNat with
      | none => none
      | some face =>
        match face.refFace with
        | none => some face
        | some r =>
          if hv : i ∈ visited then none
          else resolveFace faceMap (some r) (insert i visited)
termination_by ((intRange faceMap.length) \ visited).card
decreasing_by
  simp only [not_or, not_lt, not_le] at hb
  exact card_sdiff_insert_lt hb.1 hb.2 hv

/--
Embedding of `wouldCreateLoop(faceMap, faceCount, fromIdx, toIdx)`
(src/scripts/ExotikDiceConfig.js, lines 65-76); the `while` loop becomes
the recursion on `current`:

```js
function wouldCreateLoop(faceMap, faceCount, fromIdx, toIdx) {
    const visited = new Set();
    let current = toIdx;
    while (current != null) {
        if (current === fromIdx) return true;
        if (visited.has(current)) return false;
        if (current < 0 || current >= faceCount) return false;
        visited.add(current);
        current = faceMap[current]?.refFace ?? null;
    }
    return false;
}
```
-/
def wouldCreateLoopAux (faceMap : List Face) (faceCount : Nat) (fromIdx : Int)
    (current : Option Int) (visited : Finset Int) : Bool :=
  match current with
  | none => false
  | some c =>
    if c = fromIdx then true
    else if hv : c ∈ visited then false
    else if hb : c < 0 ∨ (faceCount : Int) ≤ c then false
    else
      wouldCreateLoopAux faceMap faceCount fromIdx
        ((faceMap.get? c.toNat).bind (fun f => f.refFace)) (insert c visited)
termination_by ((intRange faceCount) \ visited).card
decreasing_by
  simp only [not_or, not_lt, not_le] at hb
  exact card_sdiff_insert_lt hb.1 hb.2 hv

def wouldCreateLoop (faceMap : List Face) (faceCount : Nat)
    (fromIdx toIdx : Int) : Bool :=
  wouldCreateLoopAux faceMap faceCount fromIdx (some toIdx) ∅

/-- Convenience: a blank concrete face. -/
def concreteFace (label texture : String) : Face :=
  ⟨none, label, texture, "", ""⟩

/-- Convenience: a pure reference face. -/
def refOnlyFace (r : Int) : Face :=
  ⟨some r, "", "", "", ""⟩

/-- The three-face example of the spec:
`[{label:"A",texture:"a.png"}, {ref:0}, {ref:1}]`. -/
def exThree : List Face :=
  [concreteFace "A" "a.png", refOnlyFace 0, refOnlyFace 1]

/-- The two-face cycle example of the spec: `[{ref:1}, {ref:0}]`. -/
def exCycle : List Face :=
  [refOnlyFace 1, refOnlyFace 0]

example : resolveFace exThree (some 0) ∅ = some (concreteFace "A" "a.png") := by
  simp [resolveFace, exThree, concreteFace, refOnlyFace]

example : resolveFace exThree (some 2) ∅ = some (concreteFace "A" "a.png") := by
  simp [resolveFace, exThree, concreteFace, refOnlyFace]

example : resolveFace exCycle (some 0) ∅ = none := by
  simp [resolveFace, exCycle, refOnlyFace]

example : wouldCreateLoop exThree 3 0 2 = true := by
  simp [wouldCreateLoop, wouldCreateLoopAux, exThree, concreteFace, refOnlyFace]

/-- The face stored at an integer index, when the index is a valid
position of the list (`faceMap[i]` in JavaScript). -/
def faceAt (faceMap : List Face) (i : Int) : Option Face :=
  if 0 ≤ i then faceMap.get? i.toNat else none

theorem faceAt_bounds {faceMap : List Face} {i : Int} {f : Face}
    (h : faceAt faceMap i = some f) :
    0 ≤ i ∧ i.toNat < faceMap.length ∧ faceMap.get? i.toNat = some f := by
  unfold faceAt at h
  by_cases h0 : 0 ≤ i
  · rw [if_pos h0] at h
    refine ⟨h0, ?_, h⟩
    by_contra hge
    rw [List.get?_eq_none.mpr (by omega)] at h
    exact Option.noConfusion h
  · rw [if_neg h0] at h
    exact Option.noConfusion h

/-- One-step unfolding of `resolveFace` at a concrete (non-referencing) face. -/
theorem resolveFace_concrete (faceMap : List Face) (i : Int) (f : Face)
    (visited : Finset Int)
    (hget : faceAt faceMap i = some f) (href : f.refFace = none) :
    resolveFace faceMap (some i) visited = some f := by
  obtain ⟨h0, hlt, hget'⟩ := faceAt_bounds hget
  have hb : ¬ (i < 0 ∨ (faceMap.length : Int) ≤ i) := by omega
  unfold resolveFace
  rw [dif_neg hb, hget']
  simp [href]

/-- One-step unfolding of `resolveFace` at a referencing face not yet visited. -/
theorem resolveFace_step (faceMap : List Face) (i r : Int) (f : Face)
    (visited : Finset Int)
    (hget : faceAt faceMap i = some f) (href : f.refFace = some r)
    (hv : i ∉ visited) :
    resolveFace faceMap (some i) visited =
      resolveFace faceMap (some r) (insert i visited) := by
  obtain ⟨h0, hlt, hget'⟩ := faceAt_bounds hget
  have hb : ¬ (i < 0 ∨ (faceMap.length : Int) ≤ i) := by omega
  conv_lhs => unfold resolveFace
  rw [dif_neg hb, hget']
  simp [href, hv]

/-- One-step unfolding of `resolveFace` at a referencing face already visited. -/
theorem resolveFace_visited (faceMap : List Face) (i r : Int) (f : Face)
    (visited : Finset Int)
    (hget : faceAt faceMap i = some f) (href : f.refFace = some r)
    (hv : i ∈ visited) :
    resolveFace faceMap (some i) visited = none := by
  obtain ⟨h0, hlt, hget'⟩ := faceAt_bounds hget
  have hb : ¬ (i < 0 ∨ (faceMap.length : Int) ≤ i) := by omega
  unfold resolveFace
  rw [dif_neg hb, hget']
  simp [href, hv]

/-- The step relation of a reference chain: face `a` exists and its
`refFace` points at `b`. -/
def RefStep (faceMap : List Face) (a b : Int) : Prop :=
  ∃ g, faceAt faceMap a = some g ∧ g.refFace = some b

/-- Main resolver lemma: along a duplicate-free reference chain ending in a
concrete face, and whose members avoid the visited set, `resolveFace`
returns that concrete face. -/
theorem resolveFace_of_chain (faceMap : List Face) :
    ∀ (chain : List Int) (visited : Finset Int) (i : Int) (f : Face),
      chain.head? = some i →
      chain.Nodup →
      (∀ j ∈ chain, j ∉ visited) →
      chain.Chain' (RefStep faceMap) →
      (∃ j, chain.getLast? = some j ∧ faceAt faceMap j = some f ∧
        f.refFace = none) →
      resolveFace faceMap (some i) visited = some f := by
  intro chain
  induction chain with
  | nil => intro visited i f hhead; exact absurd hhead (by simp)
  | cons a tl ih =>
    intro visited i f hhead hnodup hvis hchain hlast
    have hia : i = a := by simpa using hhead.symm
    subst hia
    cases tl with
    | nil =>
      obtain ⟨j, hj, hfj, hrefj⟩ := hlast
      have hja : j = i := by simpa using hj.symm
      rw [← hja]
      exact resolveFace_concrete faceMap j f visited hfj hrefj
    | cons b rest =>
      obtain ⟨g, hg, hgr⟩ := hchain.rel_head
      have hstep := resolveFace_step faceMap i b g visited hg hgr
        (hvis i (by simp))
      rw [hstep]
      refine ih (insert i visited) b f (by simp) hnodup.of_cons ?_
        hchain.tail ?_
      · intro j hj
        rw [Finset.mem_insert]
        push_neg
        refine ⟨?_, hvis j (List.mem_cons_of_mem _ hj)⟩
        intro hji
        exact (List.nodup_cons.mp hnodup).1 (hji ▸ hj)
      · obtain ⟨j, hj, hfj, hrefj⟩ := hlast
        exact ⟨j, by simpa using hj, hfj, hrefj⟩

/-- **C1**: for every face sequence and every duplicate-free (acyclic)
reference chain that starts at an in-bounds index `i` and ends at a
concrete face `f` (one whose `refFace` is `null`), `resolveFace faces i`
returns exactly `f`.  Since `resolveFace` is a function, the concrete face
at the end of any such chain from `i` is unique.  The one-element chain
case states that a face with no reference resolves to itself; the witness
instantiates the three-face example of the spec, where all three indices
resolve to face 0. -/
theorem C1_resolveFace_acyclic (faceMap : List Face) (chain : List Int)
    (i : Int) (f : Face)
    (hhead : chain.head? = some i)
    (hnodup : chain.Nodup)
    (hchain : chain.Chain' (RefStep faceMap))
    (hlast : ∃ j, chain.getLast? = some j ∧ faceAt faceMap j = some f ∧
      f.refFace = none) :
    resolveFace faceMap (some i) ∅ = some f :=
  resolveFace_of_chain faceMap chain ∅ i f hhead hnodup (by simp) hchain hlast

/-- Witness for C1: the spec's three-face example
`[{label:"A",texture:"a.png"}, {ref:0}, {ref:1}]`, where indices 2, 1
and 0 all resolve to face 0 (chains `[2,1,0]`, `[1,0]` and `[0]`). -/
theorem C1_resolveFace_acyclic_witness :
    resolveFace exThree (some 2) ∅ = some (concreteFace "A" "a.png") ∧
    resolveFace exThree (some 1) ∅ = some (concreteFace "A" "a.png") ∧
    resolveFace exThree (some 0) ∅ = some (concreteFace "A" "a.png") := by
  have s21 : RefStep exThree 2 1 := ⟨refOnlyFace 1, by decide, by decide⟩
  have s10 : RefStep exThree 1 0 := ⟨refOnlyFace 0, by decide, by decide⟩
  refine ⟨?_, ?_, ?_⟩
  · exact C1_resolveFace_acyclic exThree [2, 1, 0] 2 _ (by simp) (by decide)
      (List.chain'_cons.mpr ⟨s21, List.chain'_cons.mpr
        ⟨s10, List.chain'_singleton 0⟩⟩)
      ⟨0, by simp, by decide, by decide⟩
  · exact C1_resolveFace_acyclic exThree [1, 0] 1 _ (by simp) (by decide)
      (List.chain'_cons.mpr ⟨s10, List.chain'_singleton 0⟩)
      ⟨0, by simp, by decide, by decide⟩
  · exact C1_resolveFace_acyclic exThree [0] 0 _ (by simp) (by decide)
      (List.chain'_singleton 0)
      ⟨0, by simp, by decide, by decide⟩

/-- Walking a duplicate-free reference chain whose members avoid `visited`
adds exactly the chain members to the visited set and continues at the
successor of the chain's last element. -/
theorem resolveFace_walk (faceMap : List Face) :
    ∀ (chain : List Int) (visited : Finset Int) (i r : Int),
      chain.head? = some i →
      chain.Nodup →
      (∀ j ∈ chain, j ∉ visited) →
      chain.Chain' (RefStep faceMap) →
      (∃ l g, chain.getLast? = some l ∧ faceAt faceMap l = some g ∧
        g.refFace = some r) →
      resolveFace faceMap (some i) visited =
        resolveFace faceMap (some r) (visited ∪ chain.toFinset) := by
  intro chain
  induction chain with
  | nil => intro visited i r hhead; exact absurd hhead (by simp)
  | cons a tl ih =>
    intro visited i r hhead hnodup hvis hchain hlast
    have hia : i = a := by simpa using hhead.symm
    subst hia
    cases tl with
    | nil =>
      obtain ⟨l, g, hl, hfg, hgr⟩ := hlast
      have hli : l = i := by simpa using hl.symm
      subst hli
      rw [resolveFace_step faceMap l r g visited hfg hgr (hvis l (by simp))]
      congr 1
      ext x
      simp only [Finset.mem_union, Finset.mem_insert, List.toFinset_cons,
        List.toFinset_nil, insert_emptyc_eq, Finset.mem_singleton]
      tauto
    | cons b rest =>
      obtain ⟨g, hg, hgr⟩ := hchain.rel_head
      rw [resolveFace_step faceMap i b g visited hg hgr (hvis i (by simp))]
      have htail := ih (insert i visited) b r (by simp) hnodup.of_cons
        (by
          intro j hj
          rw [Finset.mem_insert]
          push_neg
          refine ⟨?_, hvis j (List.mem_cons_of_mem _ hj)⟩
          intro hji
          exact (List.nodup_cons.mp hnodup).1 (hji ▸ hj))
        hchain.tail
        (by
          obtain ⟨l, g', hl, hfg', hgr'⟩ := hlast
          exact ⟨l, g', by simpa using hl, hfg', hgr'⟩)
      rw [htail]
      congr 1
      ext x
      simp only [Finset.mem_union, Finset.mem_insert, List.toFinset_cons,
        List.mem_toFinset]
      tauto

/-- An index `i` lies on a reference cycle: some duplicate-free chain of
reference steps starts at `i` and its last face refers back to `i`. -/
def OnRefCycle (faceMap : List Face) (i : Int) : Prop :=
  ∃ chain : List Int,
    chain.head? = some i ∧ chain.Nodup ∧
    chain.Chain' (RefStep faceMap) ∧
    (∃ l g, chain.getLast? = some l ∧ faceAt faceMap l = some g ∧
      g.refFace = some i)

/-- **C2**: `resolveFace` terminates on every input — in the embedding its
recursion is well-founded because each step strictly shrinks the set of
in-bounds indices not yet visited, mirroring the `visited`-set argument of
the code — and for every index lying on a reference cycle it returns
`null` (`none`) rather than throwing or looping.  The witness instantiates
the spec's two-face cycle `[{ref:1}, {ref:0}]` at both indices. -/
theorem C2_resolveFace_cycle_none (faceMap : List Face) (i : Int)
    (hcyc : OnRefCycle faceMap i) :
    resolveFace faceMap (some i) ∅ = none := by
  obtain ⟨chain, hhead, hnodup, hchain, l, g, hl, hfg, hgr⟩ := hcyc
  have hwalk := resolveFace_walk faceMap chain ∅ i i hhead hnodup (by simp)
    hchain ⟨l, g, hl, hfg, hgr⟩
  rw [hwalk]
  have hmem : i ∈ (∅ : Finset Int) ∪ chain.toFinset := by
    simp only [Finset.empty_union, List.mem_toFinset]
    exact List.mem_of_mem_head? hhead
  obtain ⟨g', r', hg', hgr'⟩ :
      ∃ g' r', faceAt faceMap i = some g' ∧ g'.refFace = some r' := by
    cases chain with
    | nil => exact absurd hhead (by simp)
    | cons a tl =>
      have hia : a = i := by simpa using hhead
      cases tl with
      | nil =>
        have hli : l = a := by simpa using hl.symm
        exact ⟨g, i, by rw [← hia, ← hli]; exact hfg, hgr⟩
      | cons b rest =>
        obtain ⟨g', hg', hgr'⟩ := hchain.rel_head
        exact ⟨g', b, by rw [← hia]; exact hg', hgr'⟩
  exact resolveFace_visited faceMap i r' g' _ hg' hgr' hmem

/-- Witness for C2: both indices of the two-face cycle `[{ref:1}, {ref:0}]`
resolve to "not resolvable" (`none`). -/
theorem C2_resolveFace_cycle_none_witness :
    resolveFace exCycle (some 0) ∅ = none ∧
    resolveFace exCycle (some 1) ∅ = none := by
  have s01 : RefStep exCycle 0 1 := ⟨refOnlyFace 1, by decide, by decide⟩
  have s10 : RefStep exCycle 1 0 := ⟨refOnlyFace 0, by decide, by decide⟩
  constructor
  · exact C2_resolveFace_cycle_none exCycle 0
      ⟨[0, 1], by simp, by decide,
        List.chain'_cons.mpr ⟨s01, List.chain'_singleton 1⟩,
        1, refOnlyFace 0, by simp, by decide, by decide⟩
  · exact C2_resolveFace_cycle_none exCycle 1
      ⟨[1, 0], by simp, by decide,
        List.chain'_cons.mpr ⟨s10, List.chain'_singleton 0⟩,
        0, refOnlyFace 1, by simp, by decide, by decide⟩

/-! ### The loop-prevention predicate (claim C3) -/

/-- Unfolding `wouldCreateLoopAux` when the walk has ended. -/
theorem wcl_none (faceMap : List Face) (faceCount : Nat) (tgt : Int)
    (visited : Finset Int) :
    wouldCreateLoopAux faceMap faceCount tgt none visited = false := by
  unfold wouldCreateLoopAux
  rfl

/-- Unfolding `wouldCreateLoopAux` when the walk hits `fromIdx`. -/
theorem wcl_hit (faceMap : List Face) (faceCount : Nat) (tgt : Int)
    (visited : Finset Int) :
    wouldCreateLoopAux faceMap faceCount tgt (some tgt) visited = true := by
  unfold wouldCreateLoopAux
  rw [if_pos rfl]

/-- Unfolding `wouldCreateLoopAux` at an already-visited index. -/
theorem wcl_visited (faceMap : List Face) (faceCount : Nat) (tgt c : Int)
    (visited : Finset Int) (hne : ¬ c = tgt) (hv : c ∈ visited) :
    wouldCreateLoopAux faceMap faceCount tgt (some c) visited = false := by
  unfold wouldCreateLoopAux
  rw [if_neg hne, dif_pos hv]

/-- Unfolding `wouldCreateLoopAux` at an out-of-bounds index. -/
theorem wcl_oob (faceMap : List Face) (faceCount : Nat) (tgt c : Int)
    (visited : Finset Int) (hne : ¬ c = tgt) (hv : c ∉ visited)
    (hb : c < 0 ∨ (faceCount : Int) ≤ c) :
    wouldCreateLoopAux faceMap faceCount tgt (some c) visited = false := by
  unfold wouldCreateLoopAux
  rw [if_neg hne, dif_neg hv, dif_pos hb]

/-- Unfolding `wouldCreateLoopAux` at a fresh in-bounds index: the walk
follows the face's reference. -/
theorem wcl_step (faceMap : List Face) (faceCount : Nat) (tgt c : Int)
    (visited : Finset Int) (hne : ¬ c = tgt) (hv : c ∉ visited)
    (hb : ¬ (c < 0 ∨ (faceCount : Int) ≤ c)) :
    wouldCreateLoopAux faceMap faceCount tgt (some c) visited =
      wouldCreateLoopAux faceMap faceCount tgt
        ((faceMap.get? c.toNat).bind (fun f => f.refFace))
        (insert c visited) := by
  conv_lhs => unfold wouldCreateLoopAux
  rw [if_neg hne, dif_neg hv, dif_neg hb]

/-- `fromIdx` (the target `tgt`) is reachable from an index by following
the existing `refFace` references of in-bounds faces; the bound is the
`faceCount` argument of `wouldCreateLoop`. -/
inductive RefReaches (faceMap : List Face) (faceCount : Nat) (tgt : Int) :
    Int → Prop
  | refl : RefReaches faceMap faceCount tgt tgt
  | step {c r : Int} {f : Face} (h0 : 0 ≤ c) (hn : c < (faceCount : Int))
      (hget : faceMap.get? c.toNat = some f) (href : f.refFace = some r)
      (hr : RefReaches faceMap faceCount tgt r) :
      RefReaches faceMap faceCount tgt c

/-- Soundness of the walk: if `wouldCreateLoopAux` answers `true`, the
target is reachable from the current index. -/
theorem wouldCreateLoopAux_sound (faceMap : List Face) (faceCount : Nat)
    (tgt : Int) :
    ∀ (n : Nat) (current : Option Int) (visited : Finset Int),
      ((intRange faceCount) \ visited).card = n →
      wouldCreateLoopAux faceMap faceCount tgt current visited = true →
      ∃ c, current = some c ∧ RefReaches faceMap faceCount tgt c := by
  intro n
  induction n using Nat.strong_induction_on with
  | _ n ih =>
    intro current visited hn htrue
    match current with
    | none =>
      rw [wcl_none] at htrue
      exact absurd htrue (by simp)
    | some c =>
      refine ⟨c, rfl, ?_⟩
      by_cases hne : c = tgt
      · subst hne; exact RefReaches.refl
      · by_cases hv : c ∈ visited
        · rw [wcl_visited _ _ _ _ _ hne hv] at htrue
          exact absurd htrue (by simp)
        · by_cases hb : c < 0 ∨ (faceCount : Int) ≤ c
          · rw [wcl_oob _ _ _ _ _ hne hv hb] at htrue
            exact absurd htrue (by simp)
          · rw [wcl_step _ _ _ _ _ hne hv hb] at htrue
            push_neg at hb
            have hcard : ((intRange faceCount) \ insert c visited).card < n :=
              hn ▸ card_sdiff_insert_lt hb.1 hb.2 hv
            obtain ⟨r, hr, hreach⟩ := ih _ hcard _ _ rfl htrue
            obtain ⟨f, hf, hrf⟩ := Option.bind_eq_some.mp hr
            exact RefReaches.step hb.1 hb.2 hf hrf hreach

/-- A concrete path witnessing reachability: consecutive elements are
linked by `refFace`, every element but the last is in bounds with an
existing face, and the path ends at the target. -/
def ReachPath (faceMap : List Face) (faceCount : Nat) (tgt : Int)
    (p : List Int) : Prop :=
  p.getLast? = some tgt ∧
  p.Chain' (fun a b => 0 ≤ a ∧ a < (faceCount : Int) ∧
    ∃ f, faceMap.get? a.toNat = some f ∧ f.refFace = some b)

theorem head?_dropWhile_mem {c : Int} :
    ∀ {p : List Int}, c ∈ p →
      (p.dropWhile (fun x => x ≠ c)).head? = some c := by
  intro p
  induction p with
  | nil => intro h; exact absurd h (by simp)
  | cons a t ih =>
    intro h
    rw [List.dropWhile_cons]
    by_cases hac : a = c
    · subst hac
      simp
    · rw [if_pos (by simpa using hac)]
      exact ih (by
        rcases List.mem_cons.mp h with h' | h'
        · exact absurd h'.symm hac
        · exact h')

/-- Every reachable index is the head of a duplicate-free reach path. -/
theorem refReaches_path (faceMap : List Face) (faceCount : Nat) (tgt : Int) :
    ∀ {c : Int}, RefReaches faceMap faceCount tgt c →
      ∃ p, ReachPath faceMap faceCount tgt p ∧ p.head? = some c ∧ p.Nodup := by
  intro c h
  induction h with
  | refl => exact ⟨[tgt], ⟨by simp, by simp⟩, by simp, by simp⟩
  | @step c r f h0 hn hget href hr ih =>
    obtain ⟨p, ⟨hlast, hchain⟩, hhead, hnodup⟩ := ih
    by_cases hc : c ∈ p
    · refine ⟨p.dropWhile (fun x => x ≠ c), ⟨?_, ?_⟩, head?_dropWhile_mem hc, ?_⟩
      · have hsuf : p.dropWhile (fun x => x ≠ c) <:+ p := List.dropWhile_suffix _
        obtain ⟨t, ht⟩ := hsuf
        have hh : (p.dropWhile (fun x => x ≠ c)).head? = some c :=
          head?_dropWhile_mem hc
        have hne : p.dropWhile (fun x => x ≠ c) ≠ [] := by
          intro hnil
          rw [hnil] at hh
          exact Option.noConfusion hh
        rw [← ht] at hlast
        rwa [List.getLast?_append_of_ne_nil t hne] at hlast
      · exact hchain.suffix (List.dropWhile_suffix _)
      · exact hnodup.sublist (List.dropWhile_suffix _).sublist
    · cases p with
      | nil => exact absurd hhead (by simp)
      | cons b t =>
        have hbr : b = r := by simpa using hhead
        subst hbr
        refine ⟨c :: b :: t, ⟨?_, ?_⟩, by simp, ?_⟩
        · rw [List.getLast?_cons_cons]
          exact hlast
        · exact List.chain'_cons.mpr ⟨⟨h0, hn, f, hget, href⟩, hchain⟩
        · exact List.nodup_cons.mpr ⟨hc, hnodup⟩

/-- Completeness of the walk: along a duplicate-free reach path whose
non-target members avoid the visited set, `wouldCreateLoopAux` answers
`true`. -/
theorem wouldCreateLoopAux_complete (faceMap : List Face) (faceCount : Nat)
    (tgt : Int) :
    ∀ (p : List Int) (visited : Finset Int) (c : Int),
      p.head? = some c → p.Nodup →
      ReachPath faceMap faceCount tgt p →
      (∀ j ∈ p, j ≠ tgt → j ∉ visited) →
      wouldCreateLoopAux faceMap faceCount tgt (some c) visited = true := by
  intro p
  induction p with
  | nil => intro visited c hhead; exact absurd hhead (by simp)
  | cons a t ih =>
    intro visited c hhead hnodup ⟨hlast, hchain⟩ hvis
    have hca : c = a := by simpa using hhead.symm
    subst hca
    by_cases hct : c = tgt
    · subst hct
      exact wcl_hit faceMap faceCount c visited
    · cases t with
      | nil =>
        have : c = tgt := by simpa using hlast
        exact absurd this hct
      | cons b rest =>
        obtain ⟨h0, hn, f, hget, href⟩ := hchain.rel_head
        have hcv : c ∉ visited := hvis c (by simp) hct
        rw [wcl_step _ _ _ _ _ hct hcv (by omega)]
        rw [hget]
        simp only [Option.some_bind, href]
        refine ih (insert c visited) b (by simp) hnodup.of_cons
          ⟨by rw [← List.getLast?_cons_cons (a := c)]; exact hlast,
            hchain.tail⟩ ?_
        intro j hj hjt
        rw [Finset.mem_insert]
        push_neg
        refine ⟨?_, hvis j (List.mem_cons_of_mem _ hj) hjt⟩
        intro hjc
        exact (List.nodup_cons.mp hnodup).1 (hjc ▸ hj)

/-- Counterexample to claim C3 as stated: in the single-face sequence
`[{label:"A"}]` face 0 has no outgoing reference, yet
`wouldCreateLoop(faces, 1, 0, 0)` returns `true` — the very first loop
iteration hits `current === fromIdx`, before the face's (absent)
reference is even examined — contradicting the claim's "it returns false
when `to` has no outgoing reference". -/
theorem C3_counterexample :
    wouldCreateLoop [concreteFace "A" ""] 1 0 0 = true := by
  unfold wouldCreateLoop
  exact wcl_hit _ _ _ _

/-- **C3 (amended)**: `wouldCreateLoop(faces, N, from, to)` returns `true`
iff `from` is reachable from `to` by following the existing references of
in-bounds faces (including the zero-step case `from = to`); consequently,
when `from ≠ to` it returns `false` whenever `to` has no outgoing
reference (because `to`'s face is absent, out of bounds, or concrete) —
and, by the same equivalence, whenever the chain from `to` stops at an
already-visited index or at an out-of-bounds index without encountering
`from`.  The original claim's "returns false when `to` has no outgoing
reference" needs the qualification `from ≠ to` shown by the
counterexample. -/
theorem C3_wouldCreateLoop_iff (faceMap : List Face) (faceCount : Nat)
    (fromIdx toIdx : Int) :
    (wouldCreateLoop faceMap faceCount fromIdx toIdx = true ↔
      RefReaches faceMap faceCount fromIdx toIdx) ∧
    (fromIdx ≠ toIdx →
      (faceAt faceMap toIdx).bind Face.refFace = none →
      wouldCreateLoop faceMap faceCount fromIdx toIdx = false) := by
  have hiff : wouldCreateLoop faceMap faceCount fromIdx toIdx = true ↔
      RefReaches faceMap faceCount fromIdx toIdx := by
    constructor
    · intro htrue
      obtain ⟨c, hc, hreach⟩ := wouldCreateLoopAux_sound faceMap faceCount
        fromIdx _ (some toIdx) ∅ rfl htrue
      cases hc
      exact hreach
    · intro hreach
      obtain ⟨p, hpath, hhead, hnodup⟩ := refReaches_path faceMap faceCount
        fromIdx hreach
      exact wouldCreateLoopAux_complete faceMap faceCount fromIdx p ∅ toIdx
        hhead hnodup hpath (by simp)
  refine ⟨hiff, ?_⟩
  intro hne hleaf
  rw [← Bool.not_eq_true, hiff]
  intro hreach
  cases hreach with
  | refl => exact hne rfl
  | @step _ r f h0 hn hget href _ =>
    have : faceAt faceMap toIdx = some f := by
      unfold faceAt
      rw [if_pos h0]
      exact hget
    rw [this] at hleaf
    simp only [Option.some_bind, href] at hleaf
    exact Option.noConfusion hleaf

/-- Witness for C3 (amended): with a single concrete face, `from = 1`,
`to = 0` (a leaf, `from ≠ to`), the predicate answers `false`. -/
theorem C3_wouldCreateLoop_iff_witness :
    wouldCreateLoop [concreteFace "A" ""] 1 1 0 = false :=
  (C3_wouldCreateLoop_iff [concreteFace "A" ""] 1 1 0).2 (by decide) (by decide)

/-! ### The filesystem/cache reconciler (claims C4-C7, C10)

`syncDiceFromFilesystem` (src/unnamed/part_001, lines 418-531; the copy in
src/unnamed/part_000, lines 387-501, is textually identical) scans the two
dice roots, reads each subdirectory's `dice.json` through `readDiceJson`,
skips denomination conflicts, and diffs the scanned map against the cached
`diceDefinitions` setting.  The asynchronous environment is modelled as a
`Snapshot` of the directory listings and file contents, and
`foundry.utils.randomID()` as a supply `genId : Nat → String` consumed in
call order.  `JSON.stringify` equality of two definition objects is
modelled as structural equality of `DiceDef`. -/

def MODULE_ID : String := "exotik-dices"

/-- JavaScript `path.split("/")`, on the character list of the path. -/
def splitSlash : List Char → List (List Char)
  | [] => [[]]
  | c :: rest =>
    let r := splitSlash rest
    if c = '/' then [] :: r
    else
      match r with
      | [] => [[c]]
      | h :: t => (c :: h) :: t

/-- JavaScript `path.split("/").pop()`: the last path component. -/
def lastComponent (path : String) : String :=
  String.mk ((splitSlash path.toList).getLastD [])

/-- JavaScript `s.endsWith(suf)`. -/
def strEndsWith (s suf : String) : Bool :=
  suf.toList.isSuffixOf s.toList

/-- JavaScript `s.startsWith(pre)`. -/
def strStartsWith (s pre : String) : Bool :=
  pre.toList.isPrefixOf s.toList

/-- The `find` predicate for a definition file inside a scanned folder:
`f.endsWith("/dice.json") || f.endsWith("\\dice.json")`. -/
def isDiceJsonPath (f : String) : Bool :=
  strEndsWith f "/dice.json" || strEndsWith f "\\dice.json"

/-- A die definition as stored in `dice.json` and in the `diceDefinitions`
cache: `id` is optional (`Option.none` models an absent property). -/
structure DiceDef where
  id : Option String
  name : String
  slug : String
  denomination : String
  faces : Nat
  geometry : String
  faceMap : Option (List Face)
deriving DecidableEq, Repr

/-- Path normalisation of `readDiceJson`: a non-empty relative asset path
(not starting with `modules/` nor with the module id) is prefixed with the
folder path. -/
def normPath (pfx p : String) : String :=
  if p ≠ "" ∧ strStartsWith p "modules/" = false ∧
      strStartsWith p MODULE_ID = false
  then pfx ++ p else p

/-- `readDiceJson` rewrites the `texture`, `bump` and `icon` paths of each
face; `label` and `refFace` are untouched. -/
def normalizeFace (pfx : String) (f : Face) : Face :=
  { f with
    texture := normPath pfx f.texture
    bump := normPath pfx f.bump
    icon := normPath pfx f.icon }

/--
Embedding of `readDiceJson(jsonPath, folderPath)`
(src/unnamed/part_001, lines 370-408).  `content` is the result of
fetching and JSON-parsing the file (`none` on fetch/parse failure); the
function validates `name`, `denomination` and `faceMap`, resolves relative
asset paths against the folder and overrides `slug` with the folder name:

```js
const def = await resp.json();
if (!def.name || !def.denomination || !def.faceMap) return null;
const prefix = folderPath.endsWith("/") ? folderPath : folderPath + "/";
for (const face of def.faceMap || []) {
    for (const key of ["texture", "bump", "icon"]) {
        if (face[key] && !face[key].startsWith("modules/") &&
            !face[key].startsWith(MODULE_ID)) face[key] = prefix + face[key];
    }
}
def.slug = folderPath.split("/").pop();
return def;
```
-/
def readDiceJson (content : Option DiceDef) (folderPath : String) :
    Option DiceDef :=
  match content with
  | none => none
  | some d =>
    if d.name = "" ∨ d.denomination = "" ∨ d.faceMap = none then none
    else
      let pfx := if strEndsWith folderPath "/" then folderPath
        else folderPath ++ "/"
      some { d with
        faceMap := some ((d.faceMap.getD []).map (normalizeFace pfx))
        slug := lastComponent folderPath }

/-- A snapshot of everything `syncDiceFromFilesystem` reads from its
environment: the browse results of the scan roots (in scan order, `none`
for a failed listing), the browse result of each subdirectory, and the
fetched-and-parsed contents of each file path. -/
structure Snapshot where
  rootDirs : List (Option (List String))
  subdirFiles : String → Option (List String)
  fileContents : String → Option DiceDef

/-- The concatenated `allSubDirs` list: each root's `result.dirs`, failed
roots contributing nothing. -/
def allSubDirs (fs : Snapshot) : List String :=
  fs.rootDirs.foldl (fun acc r => acc ++ r.getD []) []

/-- A JavaScript `Map` from slug to definition as an insertion-ordered
association list. -/
abbrev DefMap := List (String × DiceDef)

/-- `Map.set`: an existing key keeps its position, a new key is appended. -/
def mapSet (m : DefMap) (k : String) (v : DiceDef) : DefMap :=
  if m.any (fun p => p.1 == k) then
    m.map (fun p => if p.1 = k then (k, v) else p)
  else m ++ [(k, v)]

/-- `Map.get`. -/
def mapGet (m : DefMap) (k : String) : Option DiceDef :=
  (m.find? (fun p => p.1 == k)).map (fun p => p.2)

/-- One iteration of the scan loop of `syncDiceFromFilesystem`: browse the
subdirectory, locate a `dice.json`, read it, skip it on a denomination
conflict with an already-scanned different slug (recording the warning
`(name, denomination, existing name)`), otherwise store it under its slug. -/
def scanDir (fs : Snapshot) (st : DefMap × List (String × String × String))
    (dir : String) : DefMap × List (String × String × String) :=
  match fs.subdirFiles dir with
  | none => st
  | some files =>
    match files.find? isDiceJsonPath with
    | none => st
    | some path =>
      match readDiceJson (fs.fileContents path) dir with
      | none => st
      | some d =>
        match (st.1.map (fun p => p.2)).find?
            (fun e => e.denomination == d.denomination && e.slug != d.slug) with
        | some e => (st.1, st.2 ++ [(d.name, d.denomination, e.name)])
        | none => (mapSet st.1 d.slug d, st.2)

/-- The whole scan: the `fsDefinitions` map plus the conflict warnings. -/
def scanAll (fs : Snapshot) : DefMap × List (String × String × String) :=
  (allSubDirs fs).foldl (scanDir fs) ([], [])

/-- JavaScript falsiness of an `id` value (absent or empty string). -/
def idFalsy : Option String → Bool
  | none => true
  | some s => s == ""

/-- State threaded through the additions/modifications loop: the updated
entries, the `changed` flag, and the number of `randomID()` calls made. -/
structure Pass1State where
  defs : DefMap
  changed : Bool
  ctr : Nat
deriving Repr

/-- One iteration of the additions/modifications loop:

```js
const cached = cachedMap.get(slug);
if (!cached) { if (!fsDef.id) fsDef.id = foundry.utils.randomID(); changed = true; }
else { fsDef.id = cached.id;
       if (JSON.stringify(cached) !== JSON.stringify(fsDef)) changed = true; }
```
-/
def pass1Step (cachedMap : DefMap) (genId : Nat → String)
    (st : Pass1State) (e : String × DiceDef) : Pass1State :=
  match mapGet cachedMap e.1 with
  | none =>
    if idFalsy e.2.id then
      { defs := st.defs ++ [(e.1, { e.2 with id := some (genId st.ctr) })],
        changed := true, ctr := st.ctr + 1 }
    else
      { defs := st.defs ++ [(e.1, e.2)], changed := true, ctr := st.ctr }
  | some cached =>
    let d' := { e.2 with id := cached.id }
    { defs := st.defs ++ [(e.1, d')],
      changed := st.changed || decide (¬ cached = d'), ctr := st.ctr }

/-- The removals loop: some cached slug has no scanned counterpart. -/
def removalDetected (cachedMap fsDefs : DefMap) : Bool :=
  cachedMap.any (fun p => !(fsDefs.any (fun q => q.1 == p.1)))

/-- The final id backfill over `newDefs`:
`for (const d of newDefs) if (!d.id) d.id = foundry.utils.randomID();`. -/
def assignIds (genId : Nat → String) : Nat → List DiceDef → List DiceDef
  | _, [] => []
  | ctr, d :: rest =>
    if idFalsy d.id then
      { d with id := some (genId ctr) } :: assignIds genId (ctr + 1) rest
    else d :: assignIds genId ctr rest

/-- The reconciler's observable outcome: the returned `changed` flag and
`definitions` list, the cache contents after the call (written only when
`changed`), and the denomination-conflict warnings raised during the scan. -/
structure SyncResult where
  changed : Bool
  definitions : List DiceDef
  newCache : List DiceDef
  conflicts : List (String × String × String)
deriving Repr

/--
Embedding of `syncDiceFromFilesystem()` (src/unnamed/part_001, lines
418-531) over a filesystem `Snapshot`, a prior cache and an id supply.
The JavaScript mutates the definition objects held by `fsDefinitions` in
place; here the updated entries are rebuilt, in iteration order, by
`pass1Step` and `assignIds`.
-/
def cachedMapOf (cachedDefs : List DiceDef) : DefMap :=
  (cachedDefs.filter (fun d => d.slug != "")).foldl
    (fun m d => mapSet m d.slug d) []

def syncDiceFromFilesystem (fs : Snapshot) (cachedDefs : List DiceDef)
    (genId : Nat → String) : SyncResult :=
  let scanned := scanAll fs
  let fsDefs0 := scanned.1
  let cachedMap := cachedMapOf cachedDefs
  let st := fsDefs0.foldl (pass1Step cachedMap genId)
      { defs := [], changed := false, ctr := 0 }
  let changed := st.changed || removalDetected cachedMap fsDefs0
  if changed then
    let newDefs := assignIds genId st.ctr (st.defs.map (fun p => p.2))
    { changed := true, definitions := newDefs, newCache := newDefs,
      conflicts := scanned.2 }
  else
    { changed := false, definitions := st.defs.map (fun p => p.2),
      newCache := cachedDefs, conflicts := scanned.2 }

/-! #### List and map auxiliary lemmas -/

theorem exists_of_forall₂_mem {α β : Type} {R : α → β → Prop} :
    ∀ {l₁ : List α} {l₂ : List β}, List.Forall₂ R l₁ l₂ →
      ∀ {a}, a ∈ l₁ → ∃ b ∈ l₂, R a b := by
  intro l₁ l₂ h
  induction h with
  | nil => intro a ha; exact absurd ha (by simp)
  | cons hR hT ih =>
    intro a ha
    rcases List.mem_cons.mp ha with rfl | ha'
    · exact ⟨_, by simp, hR⟩
    · obtain ⟨b, hb, hab⟩ := ih ha'
      exact ⟨b, List.mem_cons_of_mem _ hb, hab⟩

theorem forall₂_and_mem_right {α β : Type} {R : α → β → Prop} :
    ∀ {l₁ : List α} {l₂ : List β}, List.Forall₂ R l₁ l₂ →
      List.Forall₂ (fun a b => R a b ∧ b ∈ l₂) l₁ l₂ := by
  intro l₁ l₂ h
  induction h with
  | nil => exact .nil
  | cons hR hT ih =>
    refine .cons ⟨hR, by simp⟩ (List.Forall₂.imp ?_ ih)
    intro x y hxy
    exact ⟨hxy.1, List.mem_cons_of_mem _ hxy.2⟩

theorem map_eq_of_forall₂ {α β : Type} {f : α → β} :
    ∀ {l₁ : List α} {l₂ : List β},
      List.Forall₂ (fun a b => f a = b) l₁ l₂ → l₁.map f = l₂ := by
  intro l₁ l₂ h
  induction h with
  | nil => rfl
  | cons hR hT ih => simp [hR, ih]

theorem forall₂_trans {α β γ : Type} {R : α → β → Prop} {S : β → γ → Prop}
    {T : α → γ → Prop} (h : ∀ a b c, R a b → S b c → T a c) :
    ∀ {l₁ : List α} {l₂ : List β} {l₃ : List γ},
      List.Forall₂ R l₁ l₂ → List.Forall₂ S l₂ l₃ → List.Forall₂ T l₁ l₃ := by
  intro l₁ l₂ l₃ h12
  induction h12 generalizing l₃ with
  | nil => intro h23; cases h23; exact .nil
  | cons hR hT ih =>
    intro h23
    cases h23 with
    | cons hS hT' => exact .cons (h _ _ _ hR hS) (ih hT')

/-- Keys of a `DefMap` are pairwise distinct. -/
def keysNodup (m : DefMap) : Prop := (m.map Prod.fst).Nodup

theorem mapGet_cons_hit {p : String × DiceDef} {t : DefMap} {k : String}
    (h : p.1 = k) : mapGet (p :: t) k = some p.2 := by
  simp [mapGet, List.find?_cons, h]

theorem mapGet_cons_miss {p : String × DiceDef} {t : DefMap} {k : String}
    (h : ¬ p.1 = k) : mapGet (p :: t) k = mapGet t k := by
  simp [mapGet, List.find?_cons, h]

theorem mapGet_of_mem_nodup : ∀ {m : DefMap} {k : String} {v : DiceDef},
    keysNodup m → (k, v) ∈ m → mapGet m k = some v := by
  intro m
  induction m with
  | nil => intro k v _ hm; exact absurd hm (by simp)
  | cons p t ih =>
    intro k v hnd hm
    by_cases hk : p.1 = k
    · rcases List.mem_cons.mp hm with rfl | hm'
      · exact mapGet_cons_hit hk
      · exfalso
        have : k ∈ t.map Prod.fst := List.mem_map.mpr ⟨(k, v), hm', rfl⟩
        have := (List.nodup_cons.mp hnd).1
        exact this (hk ▸ ‹k ∈ t.map Prod.fst›)
    · rcases List.mem_cons.mp hm with rfl | hm'
      · exact absurd rfl hk
      · rw [mapGet_cons_miss hk]
        exact ih (List.nodup_cons.mp hnd).2 hm'

theorem mapSet_of_absent {m : DefMap} {k : String} {v : DiceDef}
    (h : m.any (fun p => p.1 == k) = false) :
    mapSet m k v = m ++ [(k, v)] := by
  simp [mapSet, h]

/-- `mapSet` preserves distinctness of keys. -/
theorem keysNodup_mapSet {m : DefMap} {k : String} {v : DiceDef}
    (h : keysNodup m) : keysNodup (mapSet m k v) := by
  unfold mapSet
  by_cases hp : m.any (fun p => p.1 == k) = true
  · rw [if_pos hp]
    unfold keysNodup
    have : (m.map (fun p => if p.1 = k then (k, v) else p)).map Prod.fst =
        m.map Prod.fst := by
      rw [List.map_map]
      refine List.map_congr_left ?_
      intro p _
      by_cases hpk : p.1 = k
      · simp [hpk]
      · simp [hpk]
    rw [this]
    exact h
  · rw [if_neg hp]
    have hk : k ∉ m.map Prod.fst := by
      intro hmem
      obtain ⟨p, hp', hpk⟩ := List.mem_map.mp hmem
      have : m.any (fun p => p.1 == k) = true :=
        List.any_eq_true.mpr ⟨p, hp', by simp [hpk]⟩
      exact absurd this (by simp [hp])
    unfold keysNodup
    simp only [List.map_append, List.map_cons, List.map_nil]
    rw [List.nodup_append]
    refine ⟨h, by simp, ?_⟩
    intro a ha hb
    rw [List.mem_singleton] at hb
    exact hk (hb ▸ ha)

/-- Every entry of `mapSet m k v` is an old entry or the new pair. -/
theorem mem_mapSet {m : DefMap} {k : String} {v : DiceDef} {e : String × DiceDef}
    (h : e ∈ mapSet m k v) : e ∈ m ∨ e = (k, v) := by
  unfold mapSet at h
  by_cases hp : m.any (fun p => p.1 == k) = true
  · rw [if_pos hp] at h
    obtain ⟨p, hp', hpe⟩ := List.mem_map.mp h
    by_cases hpk : p.1 = k
    · right; rw [if_pos hpk] at hpe; exact hpe.symm
    · left; rw [if_neg hpk] at hpe; exact hpe ▸ hp'
  · rw [if_neg hp] at h
    rcases List.mem_append.mp h with h' | h'
    · exact Or.inl h'
    · exact Or.inr (by simpa using h')

theorem mapSet_ne_nil {m : DefMap} {k : String} {v : DiceDef} :
    mapSet m k v ≠ [] := by
  unfold mapSet
  by_cases hp : m.any (fun p => p.1 == k) = true
  · rw [if_pos hp]
    intro hnil
    have := List.any_eq_true.mp hp
    obtain ⟨p, hp', _⟩ := this
    rw [List.map_eq_nil_iff] at hnil
    rw [hnil] at hp'
    exact absurd hp' (by simp)
  · rw [if_neg hp]
    simp

/-! #### Scan invariants -/

/-- `readDiceJson` on a successfully parsed, valid definition. -/
theorem readDiceJson_eq_valid {d0 : DiceDef} {folderPath : String}
    (hname : d0.name ≠ "") (hden : d0.denomination ≠ "")
    (hfm : d0.faceMap ≠ none) :
    readDiceJson (some d0) folderPath =
      some { d0 with
        faceMap := some ((d0.faceMap.getD []).map (normalizeFace
          (if strEndsWith folderPath "/" then folderPath
            else folderPath ++ "/")))
        slug := lastComponent folderPath } := by
  simp only [readDiceJson]
  rw [if_neg (by simp [hname, hden, hfm])]

theorem readDiceJson_slug {content : Option DiceDef} {folderPath : String}
    {d : DiceDef} (h : readDiceJson content folderPath = some d) :
    d.slug = lastComponent folderPath := by
  cases content with
  | none => exact Option.noConfusion h
  | some d0 =>
    simp only [readDiceJson] at h
    by_cases hc : d0.name = "" ∨ d0.denomination = "" ∨ d0.faceMap = none
    · rw [if_pos hc] at h
      exact Option.noConfusion h
    · rw [if_neg hc] at h
      have := Option.some.inj h
      rw [← this]

/-- Invariant of the scanned definition map: keys are distinct, every value
records its key as its slug, and every key is the last component of one of
the scanned subdirectories. -/
def ScanInv (fs : Snapshot) (m : DefMap) : Prop :=
  keysNodup m ∧
  ∀ e ∈ m, e.2.slug = e.1 ∧ ∃ dir ∈ allSubDirs fs, e.1 = lastComponent dir

theorem scanDir_eq_nofiles {fs : Snapshot} {dir : String}
    {st : DefMap × List (String × String × String)}
    (hfiles : fs.subdirFiles dir = none) : scanDir fs st dir = st := by
  simp only [scanDir, hfiles]

theorem scanDir_eq_nojson {fs : Snapshot} {dir : String}
    {st : DefMap × List (String × String × String)} {files : List String}
    (hfiles : fs.subdirFiles dir = some files)
    (hpath : files.find? isDiceJsonPath = none) : scanDir fs st dir = st := by
  simp only [scanDir, hfiles, hpath]

theorem scanDir_eq_noread {fs : Snapshot} {dir : String}
    {st : DefMap × List (String × String × String)} {files : List String}
    {path : String}
    (hfiles : fs.subdirFiles dir = some files)
    (hpath : files.find? isDiceJsonPath = some path)
    (hread : readDiceJson (fs.fileContents path) dir = none) :
    scanDir fs st dir = st := by
  simp only [scanDir, hfiles, hpath, hread]

theorem scanDir_eq_conflict {fs : Snapshot} {dir : String}
    {st : DefMap × List (String × String × String)} {files : List String}
    {path : String} {d e : DiceDef}
    (hfiles : fs.subdirFiles dir = some files)
    (hpath : files.find? isDiceJsonPath = some path)
    (hread : readDiceJson (fs.fileContents path) dir = some d)
    (hconf : (st.1.map (fun p => p.2)).find?
      (fun e => e.denomination == d.denomination && e.slug != d.slug) = some e) :
    scanDir fs st dir = (st.1, st.2 ++ [(d.name, d.denomination, e.name)]) := by
  simp only [scanDir, hfiles, hpath, hread, hconf]

theorem scanDir_eq_insert {fs : Snapshot} {dir : String}
    {st : DefMap × List (String × String × String)} {files : List String}
    {path : String} {d : DiceDef}
    (hfiles : fs.subdirFiles dir = some files)
    (hpath : files.find? isDiceJsonPath = some path)
    (hread : readDiceJson (fs.fileContents path) dir = some d)
    (hconf : (st.1.map (fun p => p.2)).find?
      (fun e => e.denomination == d.denomination && e.slug != d.slug) = none) :
    scanDir fs st dir = (mapSet st.1 d.slug d, st.2) := by
  simp only [scanDir, hfiles, hpath, hread, hconf]

theorem scanDir_inv {fs : Snapshot} {dir : String}
    {st : DefMap × List (String × String × String)}
    (hdir : dir ∈ allSubDirs fs) (h : ScanInv fs st.1) :
    ScanInv fs (scanDir fs st dir).1 := by
  cases hfiles : fs.subdirFiles dir with
  | none => rw [scanDir_eq_nofiles hfiles]; exact h
  | some files =>
    cases hpath : files.find? isDiceJsonPath with
    | none => rw [scanDir_eq_nojson hfiles hpath]; exact h
    | some path =>
      cases hread : readDiceJson (fs.fileContents path) dir with
      | none => rw [scanDir_eq_noread hfiles hpath hread]; exact h
      | some d =>
        cases hconf : (st.1.map (fun p => p.2)).find?
            (fun e => e.denomination == d.denomination && e.slug != d.slug) with
        | some e => rw [scanDir_eq_conflict hfiles hpath hread hconf]; exact h
        | none =>
          rw [scanDir_eq_insert hfiles hpath hread hconf]
          refine ⟨keysNodup_mapSet h.1, ?_⟩
          intro e he
          rcases mem_mapSet he with h' | h'
          · exact h.2 e h'
          · subst h'
            exact ⟨rfl, dir, hdir, readDiceJson_slug hread⟩

theorem scanFold_inv {fs : Snapshot} :
    ∀ (dirs : List String) (st : DefMap × List (String × String × String)),
      (∀ dir ∈ dirs, dir ∈ allSubDirs fs) → ScanInv fs st.1 →
      ScanInv fs ((dirs.foldl (scanDir fs) st)).1 := by
  intro dirs
  induction dirs with
  | nil => intro st _ h; exact h
  | cons dir rest ih =>
    intro st hdirs h
    exact ih _ (fun x hx => hdirs x (List.mem_cons_of_mem _ hx))
      (scanDir_inv (hdirs dir (by simp)) h)

theorem scanAll_inv (fs : Snapshot) : ScanInv fs (scanAll fs).1 :=
  scanFold_inv (allSubDirs fs) ([], []) (fun _ h => h) ⟨by simp [keysNodup], by simp⟩

/-! #### Cache map and removal lemmas -/

theorem foldl_mapSet_ne_nil :
    ∀ (l : List DiceDef) (m0 : DefMap), m0 ≠ [] ∨ l ≠ [] →
      l.foldl (fun m d => mapSet m d.slug d) m0 ≠ [] := by
  intro l
  induction l with
  | nil =>
    intro m0 h
    rcases h with h | h
    · exact h
    · exact absurd rfl h
  | cons d t ih =>
    intro m0 _
    exact ih (mapSet m0 d.slug d) (Or.inl mapSet_ne_nil)

theorem cachedMapOf_ne_nil {cachedDefs : List DiceDef} {c : DiceDef}
    (hc : c ∈ cachedDefs) (hs : c.slug ≠ "") :
    cachedMapOf cachedDefs ≠ [] := by
  unfold cachedMapOf
  apply foldl_mapSet_ne_nil
  right
  intro hnil
  have : c ∈ cachedDefs.filter (fun d => d.slug != "") :=
    List.mem_filter.mpr ⟨hc, by simp [hs]⟩
  rw [hnil] at this
  exact absurd this (by simp)

/-- Folding `mapSet` over definitions with pairwise-distinct slugs, all new
to the accumulator, simply appends the `(slug, def)` pairs. -/
theorem foldl_mapSet_eq_append :
    ∀ (l : List DiceDef) (m0 : DefMap),
      ((m0.map Prod.fst) ++ l.map DiceDef.slug).Nodup →
      l.foldl (fun m d => mapSet m d.slug d) m0 =
        m0 ++ l.map (fun d => (d.slug, d)) := by
  intro l
  induction l with
  | nil => intro m0 _; simp
  | cons d t ih =>
    intro m0 hnd
    have habs : m0.any (fun p => p.1 == d.slug) = false := by
      rw [Bool.eq_false_iff]
      intro hany
      obtain ⟨p, hp, hpk⟩ := List.any_eq_true.mp hany
      rw [beq_iff_eq] at hpk
      have h1 : d.slug ∈ m0.map Prod.fst := List.mem_map.mpr ⟨p, hp, hpk⟩
      have h2 : d.slug ∈ (d :: t).map DiceDef.slug := by simp
      rw [List.nodup_append] at hnd
      exact hnd.2.2 h1 h2
    simp only [List.foldl_cons, mapSet_of_absent habs]
    rw [ih (m0 ++ [(d.slug, d)]) (by
      simp only [List.map_append, List.map_cons, List.map_nil] at hnd ⊢
      rw [List.append_assoc]
      simpa using hnd)]
    simp

theorem cachedMapOf_eq_map {l : List DiceDef}
    (hnd : (l.map DiceDef.slug).Nodup) (hne : ∀ d ∈ l, d.slug ≠ "") :
    cachedMapOf l = l.map (fun d => (d.slug, d)) := by
  unfold cachedMapOf
  have hfilter : l.filter (fun d => d.slug != "") = l := by
    apply List.filter_eq_self.mpr
    intro d hd
    simp [hne d hd]
  rw [hfilter, foldl_mapSet_eq_append l [] (by simpa using hnd)]
  simp

/-- Looking up a key other than the inserted one is unaffected by `mapSet`. -/
theorem mapGet_mapSet_ne {m : DefMap} {k' k : String} {v : DiceDef}
    (hne : k' ≠ k) :
    mapGet (mapSet m k' v) k = mapGet m k := by
  unfold mapSet
  by_cases hp : m.any (fun p => p.1 == k') = true
  · rw [if_pos hp]
    unfold mapGet
    rw [List.find?_map]
    have hfun : ((fun p : String × DiceDef => p.1 == k) ∘
        (fun p => if p.1 = k' then (k', v) else p)) = fun p => p.1 == k := by
      funext p
      by_cases hpk : p.1 = k'
      · simp [Function.comp, hpk]
      · simp [Function.comp, hpk]
    rw [hfun]
    cases hf : m.find? (fun q => q.1 == k) with
    | none => simp
    | some q =>
      have hpk : (q.1 == k) = true := @List.find?_some _ (fun r => r.1 == k) q _ hf
      rw [beq_iff_eq] at hpk
      have hpk' : ¬ q.1 = k' := by rw [hpk]; exact Ne.symm hne
      simp [hpk']
  · rw [if_neg hp]
    unfold mapGet
    rw [List.find?_append]
    cases hf : m.find? (fun q => q.1 == k) with
    | some q => simp
    | none =>
      have hkk : ((k', v).1 == k) = false := by simp [hne]
      simp [List.find?_cons, hkk]

/-- If no cached definition carries the key as its slug, the cache map has
no entry for it. -/
theorem mapGet_cachedMapOf_none {cachedDefs : List DiceDef} {k : String}
    (h : ∀ c ∈ cachedDefs, c.slug ≠ k) :
    mapGet (cachedMapOf cachedDefs) k = none := by
  unfold cachedMapOf
  have main : ∀ (l : List DiceDef) (m0 : DefMap),
      (∀ c ∈ l, c.slug ≠ k) → mapGet m0 k = none →
      mapGet (l.foldl (fun m d => mapSet m d.slug d) m0) k = none := by
    intro l
    induction l with
    | nil => intro m0 _ hm; exact hm
    | cons d t ih =>
      intro m0 hl hm
      rw [List.foldl_cons]
      refine ih _ (fun c hc => hl c (List.mem_cons_of_mem _ hc)) ?_
      rw [mapGet_mapSet_ne (hl d (by simp))]
      exact hm
  exact main _ [] (fun c hc => h c (List.mem_filter.mp hc).1) rfl

theorem removalDetected_of_ne_nil {cm : DefMap} (h : cm ≠ []) :
    removalDetected cm [] = true := by
  unfold removalDetected
  match cm with
  | [] => exact absurd rfl h
  | p :: t => simp

theorem removalDetected_eq_false {cm fsDefs : DefMap}
    (h : ∀ p ∈ cm, ∃ q ∈ fsDefs, q.1 = p.1) :
    removalDetected cm fsDefs = false := by
  unfold removalDetected
  rw [Bool.eq_false_iff]
  intro hany
  obtain ⟨p, hp, hflag⟩ := List.any_eq_true.mp hany
  obtain ⟨q, hq, hqp⟩ := h p hp
  rw [Bool.not_eq_true', Bool.eq_false_iff] at hflag
  exact hflag (List.any_eq_true.mpr ⟨q, hq, by simp [hqp]⟩)

/-! #### Additions/modifications pass lemmas -/

/-- What the additions/modifications loop does to one scanned entry, seen
from its output pair: same key, same definition up to the `id` field, and
the id determined by the three branches of the loop body. -/
def Pass1Rel (cmap : DefMap) (genId : Nat → String)
    (e o : String × DiceDef) : Prop :=
  o.1 = e.1 ∧ o.2 = { e.2 with id := o.2.id } ∧
  ((mapGet cmap e.1 = none ∧ idFalsy e.2.id = true ∧
      ∃ j, o.2.id = some (genId j)) ∨
    (mapGet cmap e.1 = none ∧ idFalsy e.2.id = false ∧ o.2 = e.2) ∨
    (∃ c, mapGet cmap e.1 = some c ∧ o.2 = { e.2 with id := c.id }))

theorem pass1_shape (cmap : DefMap) (genId : Nat → String) :
    ∀ (m : DefMap) (st0 : Pass1State),
      ∃ out, (m.foldl (pass1Step cmap genId) st0).defs = st0.defs ++ out ∧
        List.Forall₂ (Pass1Rel cmap genId) m out := by
  intro m
  induction m with
  | nil => intro st0; exact ⟨[], by simp, .nil⟩
  | cons e t ih =>
    intro st0
    rw [List.foldl_cons]
    cases hc : mapGet cmap e.1 with
    | none =>
      cases hf : idFalsy e.2.id with
      | true =>
        have hstep : pass1Step cmap genId st0 e =
            { defs := st0.defs ++
                [(e.1, { e.2 with id := some (genId st0.ctr) })],
              changed := true, ctr := st0.ctr + 1 } := by
          simp [pass1Step, hc, hf]
        rw [hstep]
        obtain ⟨out, hdefs, hrel⟩ := ih _
        refine ⟨(e.1, { e.2 with id := some (genId st0.ctr) }) :: out, ?_, ?_⟩
        · rw [hdefs]; simp
        · exact .cons ⟨rfl, rfl, Or.inl ⟨hc, hf, st0.ctr, rfl⟩⟩ hrel
      | false =>
        have hstep : pass1Step cmap genId st0 e =
            { defs := st0.defs ++ [(e.1, e.2)],
              changed := true, ctr := st0.ctr } := by
          simp [pass1Step, hc, hf]
        rw [hstep]
        obtain ⟨out, hdefs, hrel⟩ := ih _
        refine ⟨(e.1, e.2) :: out, ?_, ?_⟩
        · rw [hdefs]; simp
        · exact .cons ⟨rfl, rfl, Or.inr (Or.inl ⟨hc, hf, rfl⟩)⟩ hrel
    | some c =>
      have hstep : pass1Step cmap genId st0 e =
          { defs := st0.defs ++ [(e.1, { e.2 with id := c.id })],
            changed := st0.changed || decide (¬ c = { e.2 with id := c.id }),
            ctr := st0.ctr } := by
        simp [pass1Step, hc]
      rw [hstep]
      obtain ⟨out, hdefs, hrel⟩ := ih _
      refine ⟨(e.1, { e.2 with id := c.id }) :: out, ?_, ?_⟩
      · rw [hdefs]; simp
      · exact .cons ⟨rfl, rfl, Or.inr (Or.inr ⟨c, hc, rfl⟩)⟩ hrel

theorem pass1_changed_mono (cmap : DefMap) (genId : Nat → String) :
    ∀ (m : DefMap) (st0 : Pass1State), st0.changed = true →
      (m.foldl (pass1Step cmap genId) st0).changed = true := by
  intro m
  induction m with
  | nil => intro st0 h; exact h
  | cons e t ih =>
    intro st0 h
    rw [List.foldl_cons]
    refine ih _ ?_
    cases hc : mapGet cmap e.1 with
    | none => cases hf : idFalsy e.2.id <;> simp [pass1Step, hc, hf]
    | some c => simp [pass1Step, hc, h]

theorem pass1_changed_of_missing (cmap : DefMap) (genId : Nat → String) :
    ∀ (m : DefMap) (st0 : Pass1State) (e : String × DiceDef),
      e ∈ m → mapGet cmap e.1 = none →
      (m.foldl (pass1Step cmap genId) st0).changed = true := by
  intro m
  induction m with
  | nil => intro st0 e hmem; exact absurd hmem (by simp)
  | cons a t ih =>
    intro st0 e hmem hc
    rw [List.foldl_cons]
    rcases List.mem_cons.mp hmem with rfl | hmem'
    · apply pass1_changed_mono
      cases hf : idFalsy e.2.id <;> simp [pass1Step, hc, hf]
    · exact ih _ e hmem' hc

theorem pass1_all_cached (cmap : DefMap) (genId : Nat → String) :
    ∀ (m : DefMap) (st0 : Pass1State),
      (∀ e ∈ m, ∃ c, mapGet cmap e.1 = some c ∧
        ({ e.2 with id := c.id } : DiceDef) = c) →
      m.foldl (pass1Step cmap genId) st0 =
        { defs := st0.defs ++
            m.map (fun e => (e.1, (mapGet cmap e.1).getD e.2)),
          changed := st0.changed, ctr := st0.ctr } := by
  intro m
  induction m with
  | nil => intro st0 _; simp
  | cons e t ih =>
    intro st0 h
    obtain ⟨c, hc, hceq⟩ := h e (by simp)
    rw [List.foldl_cons]
    have hstep : pass1Step cmap genId st0 e =
        { defs := st0.defs ++ [(e.1, c)], changed := st0.changed,
          ctr := st0.ctr } := by
      simp only [pass1Step, hc]
      rw [hceq]
      simp
    rw [hstep, ih _ (fun x hx => h x (List.mem_cons_of_mem _ hx))]
    simp [hc]

theorem pass1_genId_irrel (cmap : DefMap) (genId genId' : Nat → String) :
    ∀ (m : DefMap) (st0 : Pass1State),
      (m.foldl (pass1Step cmap genId) st0).changed = false →
      m.foldl (pass1Step cmap genId') st0 =
        m.foldl (pass1Step cmap genId) st0 := by
  intro m
  induction m with
  | nil => intro st0 _; rfl
  | cons e t ih =>
    intro st0 hch
    rw [List.foldl_cons] at hch
    rw [List.foldl_cons, List.foldl_cons]
    cases hc : mapGet cmap e.1 with
    | none =>
      exfalso
      have htrue : (t.foldl (pass1Step cmap genId)
          (pass1Step cmap genId st0 e)).changed = true := by
        apply pass1_changed_mono
        cases hf : idFalsy e.2.id <;> simp [pass1Step, hc, hf]
      rw [htrue] at hch
      exact Bool.noConfusion hch
    | some c =>
      have hstep : ∀ g : Nat → String, pass1Step cmap g st0 e =
          { defs := st0.defs ++ [(e.1, { e.2 with id := c.id })],
            changed := st0.changed || decide (¬ c = { e.2 with id := c.id }),
            ctr := st0.ctr } := by
        intro g
        simp [pass1Step, hc]
      rw [hstep genId', hstep genId]
      rw [hstep genId] at hch
      exact ih _ hch

/-- What the final id backfill does to each definition. -/
def AssignRel (genId : Nat → String) (d d' : DiceDef) : Prop :=
  d' = { d with id := d'.id } ∧
  (idFalsy d.id = false → d' = d) ∧
  (idFalsy d.id = true → ∃ j, d'.id = some (genId j))

theorem assignIds_forall₂ (genId : Nat → String) :
    ∀ (ctr : Nat) (l : List DiceDef),
      List.Forall₂ (AssignRel genId) l (assignIds genId ctr l) := by
  intro ctr l
  induction l generalizing ctr with
  | nil => exact .nil
  | cons d t ih =>
    cases hf : idFalsy d.id with
    | true =>
      rw [show assignIds genId ctr (d :: t) =
          { d with id := some (genId ctr) } :: assignIds genId (ctr + 1) t from
        by simp [assignIds, hf]]
      refine .cons ⟨rfl, ?_, fun _ => ⟨ctr, rfl⟩⟩ (ih (ctr + 1))
      intro h
      rw [hf] at h
      exact Bool.noConfusion h
    | false =>
      rw [show assignIds genId ctr (d :: t) = d :: assignIds genId ctr t from
        by simp [assignIds, hf]]
      refine .cons ⟨rfl, fun _ => rfl, ?_⟩ (ih ctr)
      intro h
      rw [hf] at h
      exact Bool.noConfusion h

/-! #### Sync-level lemmas -/

/-- The additions/modifications pass of a sync run. -/
def pass1Of (fs : Snapshot) (cachedDefs : List DiceDef)
    (genId : Nat → String) : Pass1State :=
  (scanAll fs).1.foldl (pass1Step (cachedMapOf cachedDefs) genId)
    { defs := [], changed := false, ctr := 0 }

theorem sync_unfold (fs : Snapshot) (cachedDefs : List DiceDef)
    (genId : Nat → String) :
    syncDiceFromFilesystem fs cachedDefs genId =
      if (pass1Of fs cachedDefs genId).changed ||
          removalDetected (cachedMapOf cachedDefs) (scanAll fs).1 then
        { changed := true,
          definitions := assignIds genId (pass1Of fs cachedDefs genId).ctr
            ((pass1Of fs cachedDefs genId).defs.map (fun p => p.2)),
          newCache := assignIds genId (pass1Of fs cachedDefs genId).ctr
            ((pass1Of fs cachedDefs genId).defs.map (fun p => p.2)),
          conflicts := (scanAll fs).2 }
      else
        { changed := false,
          definitions := (pass1Of fs cachedDefs genId).defs.map (fun p => p.2),
          newCache := cachedDefs, conflicts := (scanAll fs).2 } := rfl

theorem exists_of_forall₂_mem_right {α β : Type} {R : α → β → Prop} :
    ∀ {l₁ : List α} {l₂ : List β}, List.Forall₂ R l₁ l₂ →
      ∀ {b}, b ∈ l₂ → ∃ a ∈ l₁, R a b := by
  intro l₁ l₂ h
  induction h with
  | nil => intro b hb; exact absurd hb (by simp)
  | cons hR hT ih =>
    intro b hb
    rcases List.mem_cons.mp hb with rfl | hb'
    · exact ⟨_, by simp, hR⟩
    · obtain ⟨a, ha, hab⟩ := ih hb'
      exact ⟨a, List.mem_cons_of_mem _ ha, hab⟩

theorem forall₂_and_mem_left {α β : Type} {R : α → β → Prop} :
    ∀ {l₁ : List α} {l₂ : List β}, List.Forall₂ R l₁ l₂ →
      List.Forall₂ (fun a b => R a b ∧ a ∈ l₁) l₁ l₂ := by
  intro l₁ l₂ h
  induction h with
  | nil => exact .nil
  | cons hR hT ih =>
    refine .cons ⟨hR, by simp⟩ (List.Forall₂.imp ?_ ih)
    intro x y hxy
    exact ⟨hxy.1, List.mem_cons_of_mem _ hxy.2⟩

theorem map_eq_map_of_forall₂ {α β γ : Type} {f : α → γ} {g : β → γ} :
    ∀ {l₁ : List α} {l₂ : List β},
      List.Forall₂ (fun a b => g b = f a) l₁ l₂ → l₂.map g = l₁.map f := by
  intro l₁ l₂ h
  induction h with
  | nil => rfl
  | cons hR hT ih => simp [hR, ih]

/-- The definitions returned by a sync run, entry by entry against the
scanned map: each output definition is its scanned definition with only the
`id` possibly rewritten, and the id follows the cached entry (when it has a
usable id), the generator (fresh slug with no file id) or the file
(fresh slug with a file id). -/
theorem sync_defs_rel (fs : Snapshot) (cachedDefs : List DiceDef)
    (genId : Nat → String) :
    List.Forall₂ (fun (e : String × DiceDef) (dd : DiceDef) =>
        dd = { e.2 with id := dd.id } ∧
        (∀ c, mapGet (cachedMapOf cachedDefs) e.1 = some c →
          idFalsy c.id = false → dd.id = c.id) ∧
        (mapGet (cachedMapOf cachedDefs) e.1 = none →
          idFalsy e.2.id = true → ∃ n, dd.id = some (genId n)) ∧
        (mapGet (cachedMapOf cachedDefs) e.1 = none →
          idFalsy e.2.id = false → dd.id = e.2.id))
      (scanAll fs).1
      (syncDiceFromFilesystem fs cachedDefs genId).definitions := by
  obtain ⟨out, hdefs, hrel⟩ :=
    pass1_shape (cachedMapOf cachedDefs) genId (scanAll fs).1
      { defs := [], changed := false, ctr := 0 }
  have hdefs' : (pass1Of fs cachedDefs genId).defs = out := by
    unfold pass1Of
    rw [hdefs]
    rfl
  rw [sync_unfold]
  by_cases hch : ((pass1Of fs cachedDefs genId).changed ||
      removalDetected (cachedMapOf cachedDefs) (scanAll fs).1) = true
  · rw [if_pos hch]
    simp only [hdefs']
    have hassign := assignIds_forall₂ genId (pass1Of fs cachedDefs genId).ctr
      (out.map (fun p => p.2))
    have hassign' : List.Forall₂
        (fun (o : String × DiceDef) dd => AssignRel genId o.2 dd) out
        (assignIds genId (pass1Of fs cachedDefs genId).ctr
          (out.map (fun p => p.2))) :=
      List.forall₂_map_left_iff.mp hassign
    refine forall₂_trans ?_ hrel hassign'
    intro e o dd ⟨hkey, hido, hbranch⟩ ⟨hdd, hkeep, hgen⟩
    constructor
    · rw [hdd, hido]
    refine ⟨?_, ?_, ?_⟩
    · intro c hc hcid
      rcases hbranch with ⟨hn, _, _⟩ | ⟨hn, _, _⟩ | ⟨c', hc', ho⟩
      · rw [hn] at hc; exact Option.noConfusion hc
      · rw [hn] at hc; exact Option.noConfusion hc
      · rw [hc'] at hc
        have hcc : c' = c := Option.some.inj hc
        subst hcc
        have hoid : o.2.id = c'.id := by rw [ho]
        have : idFalsy o.2.id = false := by rw [hoid]; exact hcid
        rw [hkeep this, hoid]
    · intro hn hf
      rcases hbranch with ⟨_, _, j, hj⟩ | ⟨_, hf', _⟩ | ⟨c', hc', _⟩
      · by_cases ho : idFalsy o.2.id = false
        · rw [hkeep ho, hj]; exact ⟨j, rfl⟩
        · have : idFalsy o.2.id = true := by
            cases h' : idFalsy o.2.id
            · exact absurd h' ho
            · rfl
          exact hgen this
      · rw [hf] at hf'; exact Bool.noConfusion hf'
      · rw [hn] at hc'; exact Option.noConfusion hc'
    · intro hn hf
      rcases hbranch with ⟨_, hf', _⟩ | ⟨_, _, ho⟩ | ⟨c', hc', _⟩
      · rw [hf] at hf'; exact Bool.noConfusion hf'
      · have hoid : idFalsy o.2.id = false := by rw [ho]; exact hf
        rw [hkeep hoid, ho]
      · rw [hn] at hc'; exact Option.noConfusion hc'
  · rw [if_neg hch]
    simp only [hdefs']
    have : List.Forall₂ (fun (e : String × DiceDef) (o : String × DiceDef) =>
        Pass1Rel (cachedMapOf cachedDefs) genId e o) (scanAll fs).1 out := hrel
    refine List.forall₂_map_right_iff.mpr (List.Forall₂.imp ?_ this)
    intro e o ⟨hkey, hido, hbranch⟩
    constructor
    · exact hido
    refine ⟨?_, ?_, ?_⟩
    · intro c hc hcid
      rcases hbranch with ⟨hn, _, _⟩ | ⟨hn, _, _⟩ | ⟨c', hc', ho⟩
      · rw [hn] at hc; exact Option.noConfusion hc
      · rw [hn] at hc; exact Option.noConfusion hc
      · rw [hc'] at hc
        have hcc : c' = c := Option.some.inj hc
        subst hcc
        rw [ho]
    · intro hn hf
      rcases hbranch with ⟨_, _, j, hj⟩ | ⟨_, hf', _⟩ | ⟨c', hc', _⟩
      · exact ⟨j, hj⟩
      · rw [hf] at hf'; exact Bool.noConfusion hf'
      · rw [hn] at hc'; exact Option.noConfusion hc'
    · intro hn hf
      rcases hbranch with ⟨_, hf', _⟩ | ⟨_, _, ho⟩ | ⟨c', hc', _⟩
      · rw [hf] at hf'; exact Bool.noConfusion hf'
      · rw [ho]
      · rw [hn] at hc'; exact Option.noConfusion hc'

/-! ### Claims C10, C6, C7 -/

/-- A snapshot in which both scan-root directory listings fail. -/
def emptyFS : Snapshot where
  rootDirs := [none, none]
  subdirFiles := fun _ => none
  fileContents := fun _ => none

/-- A non-empty cache whose single entry has an empty slug (the editor can
produce one: a punctuation-only name yields slug `""` via `nameToSlug`). -/
def c10BadCache : List DiceDef :=
  [⟨some "i", "N", "", "q", 6, "standard", some []⟩]

/-- Counterexample to C10 as stated: with a non-empty cached list whose
entry has an empty slug and a scan that contributes nothing (both root
listings fail), `syncDiceFromFilesystem` returns `changed = false` and
leaves the cache untouched — the entry is silently dropped from the
slug-keyed cache map by the `filter((d) => d.slug)` step, so no removal is
detected, contradicting the claim's `changed = true` and cache overwrite. -/
theorem C10_counterexample :
    c10BadCache ≠ [] ∧
    (syncDiceFromFilesystem emptyFS c10BadCache (fun _ => "g")).changed
      = false ∧
    (syncDiceFromFilesystem emptyFS c10BadCache (fun _ => "g")).newCache
      = c10BadCache := by decide

/-- **C10 (amended)**: if the cache holds at least one entry with a
non-empty slug and the scan contributes no valid definitions (in
particular when both scan-root listings fail, which makes the scanned map
empty), `syncDiceFromFilesystem` does not throw: it returns
`changed = true` with an empty definitions list and overwrites the cache
with the empty list.  The original claim's bare "cached definitions list
is non-empty" fails when every cached entry has an empty slug, as such
entries are dropped from the slug-keyed cache map before the removal
check. -/
theorem C10_empty_scan (fs : Snapshot) (cachedDefs : List DiceDef)
    (genId : Nat → String)
    (hscan : (scanAll fs).1 = [])
    (hc : ∃ c ∈ cachedDefs, c.slug ≠ "") :
    (syncDiceFromFilesystem fs cachedDefs genId).changed = true ∧
    (syncDiceFromFilesystem fs cachedDefs genId).definitions = [] ∧
    (syncDiceFromFilesystem fs cachedDefs genId).newCache = [] := by
  obtain ⟨c, hcmem, hcs⟩ := hc
  have hcm : cachedMapOf cachedDefs ≠ [] := cachedMapOf_ne_nil hcmem hcs
  have hp1 : pass1Of fs cachedDefs genId =
      { defs := [], changed := false, ctr := 0 } := by
    unfold pass1Of
    rw [hscan]
    rfl
  have hrem : removalDetected (cachedMapOf cachedDefs) (scanAll fs).1
      = true := by
    rw [hscan]
    exact removalDetected_of_ne_nil hcm
  rw [sync_unfold, hp1, hrem]
  simp [assignIds]

/-- Witness for C10 (amended): empty snapshot, one cached die with slug
`"m"`. -/
theorem C10_empty_scan_witness :
    (syncDiceFromFilesystem emptyFS
      [⟨some "i", "N", "m", "q", 6, "standard", some []⟩]
      (fun _ => "g")).changed = true ∧
    (syncDiceFromFilesystem emptyFS
      [⟨some "i", "N", "m", "q", 6, "standard", some []⟩]
      (fun _ => "g")).definitions = [] ∧
    (syncDiceFromFilesystem emptyFS
      [⟨some "i", "N", "m", "q", 6, "standard", some []⟩]
      (fun _ => "g")).newCache = [] :=
  C10_empty_scan emptyFS _ _ (by decide)
    ⟨⟨some "i", "N", "m", "q", 6, "standard", some []⟩, by simp, by decide⟩

/-- A snapshot with one scanned folder `dices/n` whose `dice.json` already
carries the id `"x"` — the same id as the cached die at slug `"m"`. -/
def c6FS : Snapshot where
  rootDirs := [some ["dices/n"]]
  subdirFiles := fun d =>
    if d = "dices/n" then some ["dices/n/dice.json"] else none
  fileContents := fun p =>
    if p = "dices/n/dice.json" then
      some ⟨some "x", "N", "", "q", 6, "standard", some []⟩
    else none

def c6Cache : List DiceDef := [⟨some "x", "M", "m", "r", 6, "standard", some []⟩]

/-- Counterexample to C6 as stated: the folder `dices/n` is not in the
cache, so it is an addition and `changed = true`, but the new entry keeps
the id `"x"` found inside the scanned `dice.json` — the reconciler only
calls `randomID()` when the file has no id (`if (!fsDef.id)`).  `"x"` is
neither freshly assigned (the generator returns `"fresh"`) nor
previously-unused (the cached die already uses `"x"`). -/
theorem C6_counterexample :
    (syncDiceFromFilesystem c6FS c6Cache (fun _ => "fresh")).changed
      = true ∧
    (syncDiceFromFilesystem c6FS c6Cache
      (fun _ => "fresh")).definitions.map DiceDef.id = [some "x"] ∧
    c6Cache.map DiceDef.id = [some "x"] := by decide

/-- **C6 (amended)**: a scanned slug absent from the cache yields
`changed = true` and a definitions entry for that slug; its id is freshly
drawn from the reconciler's id generator when the scanned file carries no
usable id (hence previously-unused whenever the generator avoids the
cached ids), while a file-supplied id is preserved as-is rather than
regenerated. -/
theorem C6_addition (fs : Snapshot) (cachedDefs : List DiceDef)
    (genId : Nat → String) (slug : String) (d : DiceDef)
    (hmem : (slug, d) ∈ (scanAll fs).1)
    (hnc : ∀ c ∈ cachedDefs, c.slug ≠ slug) :
    (syncDiceFromFilesystem fs cachedDefs genId).changed = true ∧
    ∃ dd ∈ (syncDiceFromFilesystem fs cachedDefs genId).definitions,
      dd.slug = slug ∧
      (idFalsy d.id = true → ∃ n, dd.id = some (genId n)) ∧
      (idFalsy d.id = false → dd.id = d.id) ∧
      (idFalsy d.id = true →
        (∀ n, some (genId n) ∉ cachedDefs.map DiceDef.id) →
        dd.id ∉ cachedDefs.map DiceDef.id) := by
  have hnone : mapGet (cachedMapOf cachedDefs) slug = none :=
    mapGet_cachedMapOf_none hnc
  have hch : (pass1Of fs cachedDefs genId).changed = true := by
    unfold pass1Of
    exact pass1_changed_of_missing _ genId _ _ (slug, d) hmem hnone
  constructor
  · rw [sync_unfold, if_pos (by rw [hch]; rfl)]
  · have hrel := sync_defs_rel fs cachedDefs genId
    obtain ⟨dd, hdd, hid1, hkeep, hgen, hfile⟩ :=
      exists_of_forall₂_mem hrel hmem
    have hslug : d.slug = slug :=
      ((scanAll_inv fs).2 (slug, d) hmem).1
    refine ⟨dd, hdd, ?_, ?_, ?_, ?_⟩
    · rw [hid1]; exact hslug
    · intro hf; exact hgen hnone hf
    · intro hf; exact hfile hnone hf
    · intro hf hfresh hmem'
      obtain ⟨n, hn⟩ := hgen hnone hf
      rw [hn] at hmem'
      exact hfresh n hmem'

/-- The witness snapshot for C6 (amended): a new folder whose `dice.json`
has no id. -/
def c6wFS : Snapshot where
  rootDirs := [some ["dices/n"]]
  subdirFiles := fun d =>
    if d = "dices/n" then some ["dices/n/dice.json"] else none
  fileContents := fun p =>
    if p = "dices/n/dice.json" then
      some ⟨none, "N", "", "q", 6, "standard", some []⟩
    else none

/-- Witness for C6 (amended): empty cache, one new folder, id drawn from
the generator. -/
theorem C6_addition_witness :
    (syncDiceFromFilesystem c6wFS [] (fun _ => "gen")).changed = true ∧
    ∃ dd ∈ (syncDiceFromFilesystem c6wFS [] (fun _ => "gen")).definitions,
      dd.slug = "n" := by
  obtain ⟨h1, dd, hdd, hslug, _⟩ :=
    C6_addition c6wFS [] (fun _ => "gen") "n"
      ⟨none, "N", "n", "q", 6, "standard", some []⟩ (by decide) (by simp)
  exact ⟨h1, dd, hdd, hslug⟩

/-- **C7**: a slug present both in the scan and in the cache (under a
cached entry with a usable id) is emitted with the cached entry's id,
whatever else changed: `fsDef.id = cached.id` runs unconditionally, and
the final backfill leaves non-empty ids alone. -/
theorem C7_id_preserved (fs : Snapshot) (cachedDefs : List DiceDef)
    (genId : Nat → String) (slug : String) (d c : DiceDef)
    (hmem : (slug, d) ∈ (scanAll fs).1)
    (hcache : mapGet (cachedMapOf cachedDefs) slug = some c)
    (hcid : idFalsy c.id = false) :
    ∃ dd ∈ (syncDiceFromFilesystem fs cachedDefs genId).definitions,
      dd.slug = slug ∧ dd.id = c.id := by
  have hrel := sync_defs_rel fs cachedDefs genId
  obtain ⟨dd, hdd, hid1, hkeep, _, _⟩ := exists_of_forall₂_mem hrel hmem
  have hslug : d.slug = slug := ((scanAll_inv fs).2 (slug, d) hmem).1
  exact ⟨dd, hdd, by rw [hid1]; exact hslug, hkeep c hcache hcid⟩

/-- The witness snapshot for C7: folder `dices/m` whose file content
differs from the cached entry in several fields and carries a different
id. -/
def c7FS : Snapshot where
  rootDirs := [some ["dices/m"]]
  subdirFiles := fun d =>
    if d = "dices/m" then some ["dices/m/dice.json"] else none
  fileContents := fun p =>
    if p = "dices/m/dice.json" then
      some ⟨some "old", "NewName", "", "z", 8, "geo", some []⟩
    else none

def c7Cache : List DiceDef :=
  [⟨some "keep", "OldName", "m", "q", 6, "standard", some []⟩]

/-- Witness for C7: despite every content field (name, denomination, face
count, geometry) and even the file's own id differing, the emitted entry
keeps the cached id `"keep"`. -/
theorem C7_id_preserved_witness :
    ∃ dd ∈ (syncDiceFromFilesystem c7FS c7Cache (fun _ => "g")).definitions,
      dd.slug = "m" ∧ dd.id = some "keep" :=
  C7_id_preserved c7FS c7Cache (fun _ => "g") "m"
    ⟨some "old", "NewName", "m", "z", 8, "geo", some []⟩
    ⟨some "keep", "OldName", "m", "q", 6, "standard", some []⟩
    (by decide) (by decide) (by decide)

/-! ### Claim C5: denomination conflict during a scan -/

/-- A snapshot with two dice folders, `dices/a` scanned before `dices/b`,
holding the parsed definitions `A` and `B` respectively. -/
def twoDirFS (A B : DiceDef) : Snapshot where
  rootDirs := [some ["dices/a", "dices/b"]]
  subdirFiles := fun d =>
    if d = "dices/a" then some ["dices/a/dice.json"]
    else if d = "dices/b" then some ["dices/b/dice.json"] else none
  fileContents := fun p =>
    if p = "dices/a/dice.json" then some A
    else if p = "dices/b/dice.json" then some B else none

/-- The normalised form of the definition scanned from `dices/a`. -/
def scannedA (A : DiceDef) : DiceDef :=
  { A with
    faceMap := some ((A.faceMap.getD []).map (normalizeFace "dices/a/"))
    slug := "a" }

/-- The normalised form of the definition scanned from `dices/b`. -/
def scannedB (B : DiceDef) : DiceDef :=
  { B with
    faceMap := some ((B.faceMap.getD []).map (normalizeFace "dices/b/"))
    slug := "b" }

theorem twoDirFS_scan (A B : DiceDef)
    (hAname : A.name ≠ "") (hAden : A.denomination ≠ "")
    (hAfm : A.faceMap ≠ none)
    (hBname : B.name ≠ "") (hBden : B.denomination ≠ "")
    (hBfm : B.faceMap ≠ none)
    (hden : B.denomination = A.denomination) :
    scanAll (twoDirFS A B) =
      ([("a", scannedA A)], [(B.name, B.denomination, A.name)]) := by
  have hdirs : allSubDirs (twoDirFS A B) = ["dices/a", "dices/b"] := rfl
  have hread1 : readDiceJson ((twoDirFS A B).fileContents "dices/a/dice.json")
      "dices/a" = some (scannedA A) := by
    have hfc : (twoDirFS A B).fileContents "dices/a/dice.json" = some A := by
      simp [twoDirFS]
    rw [hfc, readDiceJson_eq_valid hAname hAden hAfm]
    have h1 : (if strEndsWith "dices/a" "/" then "dices/a"
        else "dices/a" ++ "/") = "dices/a/" := by decide
    have h2 : lastComponent "dices/a" = "a" := by decide
    rw [h1, h2]
    rfl
  have hread2 : readDiceJson ((twoDirFS A B).fileContents "dices/b/dice.json")
      "dices/b" = some (scannedB B) := by
    have hfc : (twoDirFS A B).fileContents "dices/b/dice.json" = some B := by
      simp [twoDirFS]
    rw [hfc, readDiceJson_eq_valid hBname hBden hBfm]
    have h1 : (if strEndsWith "dices/b" "/" then "dices/b"
        else "dices/b" ++ "/") = "dices/b/" := by decide
    have h2 : lastComponent "dices/b" = "b" := by decide
    rw [h1, h2]
    rfl
  have hfiles1 : (twoDirFS A B).subdirFiles "dices/a"
      = some ["dices/a/dice.json"] := by simp [twoDirFS]
  have hfiles2 : (twoDirFS A B).subdirFiles "dices/b"
      = some ["dices/b/dice.json"] := by simp [twoDirFS]
  have hpath1 : (["dices/a/dice.json"] : List String).find? isDiceJsonPath
      = some "dices/a/dice.json" := by decide
  have hpath2 : (["dices/b/dice.json"] : List String).find? isDiceJsonPath
      = some "dices/b/dice.json" := by decide
  unfold scanAll
  rw [hdirs, List.foldl_cons, List.foldl_cons, List.foldl_nil]
  rw [@scanDir_eq_insert (twoDirFS A B) "dices/a" ([], []) _ _ _
    hfiles1 hpath1 hread1 rfl]
  have hm1 : mapSet ([] : DefMap) (scannedA A).slug (scannedA A)
      = [("a", scannedA A)] := rfl
  rw [hm1]
  have hpred : ((scannedA A).denomination == (scannedB B).denomination &&
      (scannedA A).slug != (scannedB B).slug) = true := by
    show (A.denomination == B.denomination && ("a" != "b")) = true
    rw [hden]
    simp
  have hconf2 : (([("a", scannedA A)] : DefMap).map (fun p => p.2)).find?
      (fun e => e.denomination == (scannedB B).denomination &&
        e.slug != (scannedB B).slug) = some (scannedA A) := by
    simp only [List.map_cons, List.map_nil, List.find?_cons, hpred]
  rw [@scanDir_eq_conflict (twoDirFS A B) "dices/b" ([("a", scannedA A)], [])
    _ _ _ _ hfiles2 hpath2 hread2 hconf2]
  rfl

theorem sync_conflicts (fs : Snapshot) (cachedDefs : List DiceDef)
    (genId : Nat → String) :
    (syncDiceFromFilesystem fs cachedDefs genId).conflicts =
      (scanAll fs).2 := by
  rw [sync_unfold]
  split <;> rfl

/-- **C5**: two valid scanned definitions at different slugs (`dices/a`
scanned before `dices/b`) claiming the same denomination: the sync keeps
the first in its `definitions` result (as its single entry, with its name,
denomination and slug intact), the second appears nowhere and is not
merged, and exactly one conflict warning is reported carrying the second's
name and denomination and the first's name. -/
theorem C5_denomination_conflict (A B : DiceDef) (cache : List DiceDef)
    (genId : Nat → String)
    (hAname : A.name ≠ "") (hAden : A.denomination ≠ "")
    (hAfm : A.faceMap ≠ none)
    (hBname : B.name ≠ "") (hBden : B.denomination ≠ "")
    (hBfm : B.faceMap ≠ none)
    (hden : B.denomination = A.denomination) :
    ∃ dd,
      (syncDiceFromFilesystem (twoDirFS A B) cache genId).definitions
        = [dd] ∧
      dd.name = A.name ∧ dd.denomination = A.denomination ∧ dd.slug = "a" ∧
      (syncDiceFromFilesystem (twoDirFS A B) cache genId).conflicts =
        [(B.name, B.denomination, A.name)] := by
  have hscan := twoDirFS_scan A B hAname hAden hAfm hBname hBden hBfm hden
  have hrel := sync_defs_rel (twoDirFS A B) cache genId
  rw [hscan] at hrel
  obtain ⟨dd, u', hdd, htail, hu⟩ := List.forall₂_cons_left_iff.mp hrel
  have hu' : u' = [] := List.forall₂_nil_left_iff.mp htail
  subst hu'
  refine ⟨dd, hu, ?_, ?_, ?_, ?_⟩
  · rw [hdd.1]; rfl
  · rw [hdd.1]; rfl
  · rw [hdd.1]; rfl
  · rw [sync_conflicts, hscan]

/-- Witness for C5: concrete defs `Alpha` (denomination `x`) at `dices/a`
and `Beta` (denomination `x`) at `dices/b`, empty cache. -/
theorem C5_denomination_conflict_witness :
    ∃ dd,
      (syncDiceFromFilesystem
        (twoDirFS ⟨none, "Alpha", "", "x", 6, "standard", some []⟩
          ⟨none, "Beta", "", "x", 4, "standard", some []⟩)
        [] (fun _ => "g")).definitions = [dd] ∧
      dd.name = "Alpha" ∧ dd.denomination = "x" ∧ dd.slug = "a" ∧
      (syncDiceFromFilesystem
        (twoDirFS ⟨none, "Alpha", "", "x", 6, "standard", some []⟩
          ⟨none, "Beta", "", "x", 4, "standard", some []⟩)
        [] (fun _ => "g")).conflicts = [("Beta", "x", "Alpha")] :=
  C5_denomination_conflict
    ⟨none, "Alpha", "", "x", 6, "standard", some []⟩
    ⟨none, "Beta", "", "x", 4, "standard", some []⟩
    [] (fun _ => "g")
    (by decide) (by decide) (by decide) (by decide) (by decide) (by decide)
    (by decide)

/-! ### Claim C4: reconciler idempotence -/

/-- **C4**: over an unchanged filesystem snapshot — the directory listings
and file contents are the very same `Snapshot`, and the second run reads
the cache the first run left behind (`newCache`, which is the old cache
when the first run reported no change) — the second run of
`syncDiceFromFilesystem` reports `changed = false` and returns the same
`definitions` list as the first run.  The hypothesis that every scanned
subdirectory has a non-empty last path component reflects the directory
listing contract (`FilePicker.browse` returns proper subdirectory paths);
a path with an empty last component would yield slug `""`, which the
slug-keyed cache map drops, making such an entry a perpetual addition. -/
theorem C4_sync_idempotent (fs : Snapshot) (cachedDefs : List DiceDef)
    (genId genId' : Nat → String)
    (hslug : ∀ dir ∈ allSubDirs fs, lastComponent dir ≠ "") :
    (syncDiceFromFilesystem fs
      (syncDiceFromFilesystem fs cachedDefs genId).newCache genId').changed
      = false ∧
    (syncDiceFromFilesystem fs
      (syncDiceFromFilesystem fs cachedDefs genId).newCache
      genId').definitions
      = (syncDiceFromFilesystem fs cachedDefs genId).definitions := by
  obtain ⟨hnodup, hent⟩ := scanAll_inv fs
  by_cases hch : ((pass1Of fs cachedDefs genId).changed ||
      removalDetected (cachedMapOf cachedDefs) (scanAll fs).1) = true
  · -- First run wrote the cache: `newCache` is the first run's definitions.
    have hNC : (syncDiceFromFilesystem fs cachedDefs genId).newCache =
        (syncDiceFromFilesystem fs cachedDefs genId).definitions := by
      rw [sync_unfold, if_pos hch]
    set defs1 := (syncDiceFromFilesystem fs cachedDefs genId).definitions
      with hdefs1
    have hC : List.Forall₂
        (fun (e : String × DiceDef) dd => dd = { e.2 with id := dd.id })
        (scanAll fs).1 defs1 :=
      List.Forall₂.imp (fun _ _ h => h.1) (sync_defs_rel fs cachedDefs genId)
    have hC2 : List.Forall₂
        (fun (e : String × DiceDef) dd =>
          (dd = { e.2 with id := dd.id } ∧ dd ∈ defs1) ∧ e ∈ (scanAll fs).1)
        (scanAll fs).1 defs1 :=
      forall₂_and_mem_left (forall₂_and_mem_right hC)
    have hslug' : ∀ e ∈ (scanAll fs).1, (e : String × DiceDef).1 ≠ "" := by
      intro e he
      obtain ⟨_, dir, hdir, hlc⟩ := hent e he
      rw [hlc]
      exact hslug dir hdir
    have hpairslug : ∀ (e : String × DiceDef) (dd : DiceDef),
        e ∈ (scanAll fs).1 → dd = { e.2 with id := dd.id } →
        dd.slug = e.1 := by
      intro e dd he hdd
      have : dd.slug = e.2.slug := by rw [hdd]
      rw [this]
      exact (hent e he).1
    have hkeys : defs1.map DiceDef.slug = (scanAll fs).1.map Prod.fst :=
      map_eq_map_of_forall₂ (List.Forall₂.imp
        (fun e dd h => hpairslug e dd h.2 h.1.1) hC2)
    have hnodup2 : (defs1.map DiceDef.slug).Nodup := by
      rw [hkeys]
      exact hnodup
    have hne2 : ∀ dd ∈ defs1, dd.slug ≠ "" := by
      intro dd hdd
      obtain ⟨e, he, hrel⟩ := exists_of_forall₂_mem_right hC2 hdd
      rw [hpairslug e dd hrel.2 hrel.1.1]
      exact hslug' e hrel.2
    have hcm2 : cachedMapOf defs1 = defs1.map (fun d => (d.slug, d)) :=
      cachedMapOf_eq_map hnodup2 hne2
    have hkeysnodup2 : keysNodup (cachedMapOf defs1) := by
      unfold keysNodup
      rw [hcm2, List.map_map]
      exact hnodup2
    have hget : ∀ dd ∈ defs1, mapGet (cachedMapOf defs1) dd.slug = some dd := by
      intro dd hdd
      refine mapGet_of_mem_nodup hkeysnodup2 ?_
      rw [hcm2]
      exact List.mem_map.mpr ⟨dd, hdd, rfl⟩
    have hallc : ∀ e ∈ (scanAll fs).1, ∃ c,
        mapGet (cachedMapOf defs1) (e : String × DiceDef).1 = some c ∧
        ({ e.2 with id := c.id } : DiceDef) = c := by
      intro e he
      obtain ⟨dd, hdd, hrel⟩ := exists_of_forall₂_mem hC2 he
      refine ⟨dd, ?_, (hrel.1.1).symm⟩
      rw [← hpairslug e dd he hrel.1.1]
      exact hget dd hrel.1.2
    have hpass2 : pass1Of fs defs1 genId' =
        { defs := (scanAll fs).1.map
            (fun e => (e.1, (mapGet (cachedMapOf defs1) e.1).getD e.2)),
          changed := false, ctr := 0 } := by
      unfold pass1Of
      rw [pass1_all_cached (cachedMapOf defs1) genId' (scanAll fs).1 _ hallc]
      rfl
    have hrem2 : removalDetected (cachedMapOf defs1) (scanAll fs).1
        = false := by
      refine removalDetected_eq_false ?_
      intro p hp
      rw [hcm2] at hp
      obtain ⟨dd, hdd, hpe⟩ := List.mem_map.mp hp
      obtain ⟨e, he, hrel⟩ := exists_of_forall₂_mem_right hC2 hdd
      refine ⟨e, he, ?_⟩
      rw [← hpe, hpairslug e dd hrel.2 hrel.1.1]
    have hcond2 : ((pass1Of fs defs1 genId').changed ||
        removalDetected (cachedMapOf defs1) (scanAll fs).1) = false := by
      rw [hpass2, hrem2]
      rfl
    have hdefs2 : (syncDiceFromFilesystem fs defs1 genId').definitions
        = defs1 := by
      rw [sync_unfold, if_neg (by rw [hcond2]; exact Bool.false_ne_true)]
      simp only [hpass2]
      rw [List.map_map]
      refine map_eq_of_forall₂ (List.Forall₂.imp ?_ hC2)
      intro e dd hrel
      have hmg : mapGet (cachedMapOf defs1) e.1 = some dd := by
        rw [← hpairslug e dd hrel.2 hrel.1.1]
        exact hget dd hrel.1.2
      show ((fun p : String × DiceDef => p.2) ∘ fun e : String × DiceDef =>
        (e.1, (mapGet (cachedMapOf defs1) e.1).getD e.2)) e = dd
      simp [Function.comp, hmg]
    have hch2 : (syncDiceFromFilesystem fs defs1 genId').changed = false := by
      rw [sync_unfold, if_neg (by rw [hcond2]; exact Bool.false_ne_true)]
    rw [hNC]
    exact ⟨hch2, hdefs2⟩
  · -- First run detected no change: the cache stays, the second run repeats
    -- the first (the id generator is never consulted).
    have hNC : (syncDiceFromFilesystem fs cachedDefs genId).newCache =
        cachedDefs := by
      rw [sync_unfold, if_neg hch]
    have hchf : (pass1Of fs cachedDefs genId).changed = false := by
      rcases Bool.or_eq_false_iff.mp (Bool.eq_false_iff.mpr hch) with ⟨h1, _⟩
      exact h1
    have hpass : pass1Of fs cachedDefs genId' = pass1Of fs cachedDefs genId := by
      unfold pass1Of
      exact pass1_genId_irrel (cachedMapOf cachedDefs) genId genId'
        (scanAll fs).1 _ hchf
    rw [hNC]
    constructor
    · rw [sync_unfold, hpass, if_neg hch]
    · rw [sync_unfold fs cachedDefs genId', hpass,
        sync_unfold fs cachedDefs genId, if_neg hch, if_neg hch]

/-- Witness for C4: running the reconciler twice over the one-folder
snapshot `c6FS` starting from the cache `c6Cache`, with different id
generators on the two runs. -/
theorem C4_sync_idempotent_witness :
    (syncDiceFromFilesystem c6FS
      (syncDiceFromFilesystem c6FS c6Cache (fun _ => "fresh")).newCache
      (fun _ => "other")).changed = false ∧
    (syncDiceFromFilesystem c6FS
      (syncDiceFromFilesystem c6FS c6Cache (fun _ => "fresh")).newCache
      (fun _ => "other")).definitions
      = (syncDiceFromFilesystem c6FS c6Cache (fun _ => "fresh")).definitions :=
  C4_sync_idempotent c6FS c6Cache (fun _ => "fresh") (fun _ => "other")
    (by decide)

/-! ### The editor save path (claims C8 and C9)

`ExotikDiceConfig._updateObject` (src/scripts/ExotikDiceConfig.js, lines
1031-1237) validates the submitted form, builds the dice definition (with
reference faces blanked), and either aborts with an error notification
followed by `throw`, reports "no changes", or writes the updated
`diceDefinitions` list.  The environment-supplied pieces are parameters:
the current definitions list, the editing context (`this._editingDice.id`
and `.slug`), the reserved denominations collected from
`CONFIG.Dice.terms`, the cached geometry face counts, and the expanded
form data.  The asset-copy step (which rewrites only the asset paths of
faces with `refFace == null`, after all validation) and the notification
calls are I/O and are not modelled; an `error` outcome means the function
threw before any folder creation, file upload or settings write. -/

/-- JavaScript `String.prototype.trim()`. -/
def jsTrim (s : String) : String :=
  String.mk (((s.toList.dropWhile Char.isWhitespace).reverse.dropWhile
    Char.isWhitespace).reverse)

/-- JavaScript `String.prototype.toLowerCase()`. -/
def jsToLower (s : String) : String :=
  String.mk (s.toList.map Char.toLower)

/-- Keep letters `a`-`z` and digits (the characters the slug regex
`[^a-z0-9]+` preserves, after lowercasing). -/
def isSlugChar (c : Char) : Bool :=
  (('a' ≤ c ∧ c ≤ 'z') ∨ ('0' ≤ c ∧ c ≤ '9') : Prop)

/-- `replace(/[^a-z0-9]+/g, "_")` on a character list: every maximal run
of non-slug characters becomes a single underscore. -/
def collapseNonSlug : List Char → List Char
  | [] => []
  | c :: rest =>
    if isSlugChar c then c :: collapseNonSlug rest
    else '_' :: collapseNonSlug (rest.dropWhile (fun d => !isSlugChar d))
termination_by cs => cs.length
decreasing_by
  · simp only [List.length_cons]
    omega
  · simp only [List.length_cons]
    have := (@List.dropWhile_suffix _ rest
      (fun d => !isSlugChar d)).sublist.length_le
    omega

/-- `nameToSlug` (src/scripts/ExotikDiceConfig.js, lines 35-41): trim,
lowercase, collapse non-alphanumeric runs to `_`, strip one leading and
one trailing underscore (`replace(/^_|_$/g, "")`; runs are already
collapsed, so at most one of each exists). -/
def nameToSlug (name : String) : String :=
  let base := collapseNonSlug (jsToLower (jsTrim name)).toList
  let base := match base with
    | '_' :: rest => rest
    | other => other
  let base := match base.reverse with
    | '_' :: rest => rest.reverse
    | _ => base
  String.mk base

/-- One raw `faceMap` entry of the expanded form data: the reference
select's parsed value and the four asset fields.  `rawMap i = none`
models a missing index (`rawMap[i] || {}`). -/
structure RawFace where
  refFace : Option Int
  label : String
  texture : String
  bump : String
  icon : String
deriving DecidableEq, Repr

/-- `parseInt(expanded.faces) || 6` (`none` models `NaN`). -/
def faceCountOf (facesInput : Option Int) : Int :=
  match facesInput with
  | none => 6
  | some 0 => 6
  | some n => n

/--
The faceMap construction shared by `_updateObject` (lines 1110-1127) and
`_captureFormData` (lines 1247-1263), which contain the identical loop:

```js
for (let i = 0; i < faceCount; i++) {
    const f = rawMap[i] || {};
    const refStr = String(f.refFace ?? "").trim();
    const refFace = refStr !== "" ? parseInt(refStr) : null;
    faceMap.push({
        refFace,
        label: refFace != null ? "" : (f.label ?? "").trim(),
        texture: refFace != null ? "" : (f.texture ?? "").trim(),
        bump: refFace != null ? "" : (f.bump ?? "").trim(),
        icon: refFace != null ? "" : (f.icon ?? "").trim(),
    });
}
```
-/
def buildFaceMap (rawMap : Nat → Option RawFace) (faceCount : Int) :
    List Face :=
  (List.range faceCount.toNat).map (fun i =>
    let f := (rawMap i).getD ⟨none, "", "", "", ""⟩
    match f.refFace with
    | some r => ⟨some r, "", "", "", ""⟩
    | none =>
      ⟨none, jsTrim f.label, jsTrim f.texture, jsTrim f.bump, jsTrim f.icon⟩)

/-- The loop-validation check of `_updateObject` (lines 1129-1137): some
face has a reference and does not resolve. -/
def hasRefLoop (faceMap : List Face) : Bool :=
  (List.range faceMap.length).any (fun i =>
    decide ((faceMap.getD i ⟨none, "", "", "", ""⟩).refFace ≠ none) &&
    decide (resolveFace faceMap (some (i : Int)) ∅ = none))

/-- A die definition in the editor's shape (the objects stored in the
`diceDefinitions` setting by the save path). -/
structure EDef where
  id : String
  name : String
  slug : String
  denomination : String
  faces : Int
  geometry : String
  faceMap : List Face
deriving DecidableEq, Repr

inductive ValidationError
  | nameRequired
  | nameConflict
  | denominationRequired
  | denominationLength
  | denominationReserved
  | denominationConflict
  | faceRefLoop
deriving DecidableEq, Repr

/-- The observable outcome of `_updateObject`: a thrown validation error
(preceded by an error notification), the "no changes" early return, or a
successful save carrying the new `diceDefinitions` list. -/
inductive UpdateOutcome
  | error (e : ValidationError)
  | noChanges
  | saved (newDefs : List EDef)
deriving DecidableEq, Repr

/-- The `diceDefinitions` list after the call: only a `saved` outcome
writes the setting. -/
def storedAfter (old : List EDef) : UpdateOutcome → List EDef
  | .saved newDefs => newDefs
  | _ => old

/-- The dirty check and save of `_updateObject` (lines 1159-1173 and
1216-1219): an unchanged existing definition is reported as "no changes"
(nothing written); otherwise the definition replaces its entry (matched by
id) or is appended, and the list is written to the setting. -/
def saveDice (currentDefs : List EDef) (diceDef : EDef) : UpdateOutcome :=
  match currentDefs.findIdx? (fun d => d.id == diceDef.id) with
  | some idx =>
    if currentDefs.get? idx = some diceDef then .noChanges
    else .saved (currentDefs.set idx diceDef)
  | none => .saved (currentDefs ++ [diceDef])

/--
Embedding of `ExotikDiceConfig._updateObject` (lines 1031-1237): the
validation chain, faceMap construction, geometry selection, dirty check
and save, in source order.
-/
def updateObject (currentDefs : List EDef) (editingId editingSlug : String)
    (reservedDenoms : List String) (geosFaces : List Int)
    (name denomination : String) (facesInput : Option Int)
    (geometryInput : String) (rawMap : Nat → Option RawFace) :
    UpdateOutcome :=
  let nameTrimmed := jsTrim name
  if nameTrimmed = "" then .error .nameRequired
  else if (currentDefs.find? (fun d =>
      jsToLower (jsTrim d.name) == jsToLower nameTrimmed &&
      d.id != editingId)).isSome then .error .nameConflict
  else
    let denom := jsToLower (jsTrim denomination)
    if denom = "" then .error .denominationRequired
    else if denom.length ≠ 1 then .error .denominationLength
    else if (reservedDenoms.filter (fun r =>
        !(currentDefs.any (fun d =>
          r == d.denomination || r == "ExotikDice_" ++ d.denomination)))).any
        (fun r => r == denom) then .error .denominationReserved
    else if (currentDefs.find? (fun d =>
        d.denomination == denom && d.id != editingId)).isSome then
      .error .denominationConflict
    else
      let faceCount := faceCountOf facesInput
      let faceMap := buildFaceMap rawMap faceCount
      if hasRefLoop faceMap then .error .faceRefLoop
      else
        let geometry :=
          if 0 < (geosFaces.filter (fun g => g == faceCount)).length then
            (if geometryInput ≠ "" then geometryInput else "standard")
          else "standard"
        let slug := if editingSlug ≠ "" then editingSlug
          else nameToSlug nameTrimmed
        saveDice currentDefs
          ⟨editingId, nameTrimmed, slug, denom, faceCount, geometry, faceMap⟩

/-- **C8**: whenever the submitted form triggers one of the validation
conditions — empty (trimmed) name, case-insensitive name conflict with a
different definition, empty denomination, denomination of length other
than one, a denomination reserved by the host (and not the module's own),
a denomination already used by a different definition, or a face whose
reference does not resolve — `_updateObject` aborts by raising an error
(after the error notification) and the stored `diceDefinitions` list is
left unchanged: every validation check precedes `ensureDiceFolders`, the
asset copying and `game.settings.set`. -/
theorem C8_validation_aborts (currentDefs : List EDef)
    (editingId editingSlug : String) (reservedDenoms : List String)
    (geosFaces : List Int) (name denomination : String)
    (facesInput : Option Int) (geometryInput : String)
    (rawMap : Nat → Option RawFace)
    (h :
      jsTrim name = "" ∨
      (∃ d ∈ currentDefs, jsToLower (jsTrim d.name) = jsToLower (jsTrim name)
        ∧ d.id ≠ editingId) ∨
      jsToLower (jsTrim denomination) = "" ∨
      (jsToLower (jsTrim denomination)).length ≠ 1 ∨
      (∃ r ∈ reservedDenoms, r = jsToLower (jsTrim denomination) ∧
        ¬ ∃ d ∈ currentDefs, r = d.denomination ∨
          r = "ExotikDice_" ++ d.denomination) ∨
      (∃ d ∈ currentDefs, d.denomination = jsToLower (jsTrim denomination) ∧
        d.id ≠ editingId) ∨
      hasRefLoop (buildFaceMap rawMap (faceCountOf facesInput)) = true) :
    (∃ e, updateObject currentDefs editingId editingSlug reservedDenoms
      geosFaces name denomination facesInput geometryInput rawMap
      = .error e) ∧
    storedAfter currentDefs
      (updateObject currentDefs editingId editingSlug reservedDenoms
        geosFaces name denomination facesInput geometryInput rawMap)
      = currentDefs := by
  suffices hs : ∃ e, updateObject currentDefs editingId editingSlug
      reservedDenoms geosFaces name denomination facesInput geometryInput
      rawMap = .error e by
    obtain ⟨e, he⟩ := hs
    exact ⟨⟨e, he⟩, by rw [he]; rfl⟩
  by_cases c1 : jsTrim name = ""
  · exact ⟨.nameRequired, by simp only [updateObject, if_pos c1]⟩
  by_cases c2 : (currentDefs.find? (fun d =>
      jsToLower (jsTrim d.name) == jsToLower (jsTrim name) &&
      d.id != editingId)).isSome = true
  · exact ⟨.nameConflict, by
      simp only [updateObject, if_neg c1, if_pos c2]⟩
  by_cases c3 : jsToLower (jsTrim denomination) = ""
  · exact ⟨.denominationRequired, by
      simp only [updateObject, if_neg c1, if_neg c2, if_pos c3]⟩
  by_cases c4 : (jsToLower (jsTrim denomination)).length = 1
  case pos =>
    by_cases c5 : ((reservedDenoms.filter (fun r =>
        !(currentDefs.any (fun d =>
          r == d.denomination || r == "ExotikDice_" ++ d.denomination)))).any
        (fun r => r == jsToLower (jsTrim denomination))) = true
    · exact ⟨.denominationReserved, by
        simp only [updateObject, if_neg c1, if_neg c2, if_neg c3,
          if_neg (not_not_intro c4), if_pos c5]⟩
    by_cases c6 : (currentDefs.find? (fun d =>
        d.denomination == jsToLower (jsTrim denomination) &&
        d.id != editingId)).isSome = true
    · exact ⟨.denominationConflict, by
        simp only [updateObject, if_neg c1, if_neg c2, if_neg c3,
          if_neg (not_not_intro c4), if_neg c5, if_pos c6]⟩
    by_cases c7 : hasRefLoop (buildFaceMap rawMap (faceCountOf facesInput))
        = true
    · exact ⟨.faceRefLoop, by
        simp only [updateObject, if_neg c1, if_neg c2, if_neg c3,
          if_neg (not_not_intro c4), if_neg c5, if_neg c6, if_pos c7]⟩
    · exfalso
      rcases h with h | h | h | h | h | h | h
      · exact c1 h
      · obtain ⟨d, hd, hname, hid⟩ := h
        refine c2 (List.find?_isSome.mpr ⟨d, hd, ?_⟩)
        simp [hname, hid]
      · exact c3 h
      · exact h c4
      · obtain ⟨r, hr, hrd, hnotown⟩ := h
        refine c5 (List.any_eq_true.mpr ⟨r, List.mem_filter.mpr ⟨hr, ?_⟩,
          by simp [hrd]⟩)
        simp only [Bool.not_eq_true', Bool.eq_false_iff]
        intro hany
        obtain ⟨d, hd, hdr⟩ := List.any_eq_true.mp hany
        refine hnotown ⟨d, hd, ?_⟩
        have hdr' : r = d.denomination ∨ r = "ExotikDice_" ++ d.denomination := by
          simpa using hdr
        exact hdr'
      · obtain ⟨d, hd, hden, hid⟩ := h
        refine c6 (List.find?_isSome.mpr ⟨d, hd, ?_⟩)
        simp [hden, hid]
      · exact c7 h
  case neg =>
    exact ⟨.denominationLength, by
      simp only [updateObject, if_neg c1, if_neg c2, if_neg c3, if_pos c4]⟩

/-- Witness for C8: an empty name (after trimming) aborts the save and
leaves the single stored definition in place. -/
theorem C8_validation_aborts_witness :
    (∃ e, updateObject
      [⟨"d1", "Old", "old", "q", 6, "standard", []⟩] "d2" "s" [] []
      "   " "q" (some 6) "" (fun _ => none) = .error e) ∧
    storedAfter [⟨"d1", "Old", "old", "q", 6, "standard", []⟩]
      (updateObject [⟨"d1", "Old", "old", "q", 6, "standard", []⟩] "d2" "s"
        [] [] "   " "q" (some 6) "" (fun _ => none))
      = [⟨"d1", "Old", "old", "q", 6, "standard", []⟩] :=
  C8_validation_aborts _ "d2" "s" [] [] "   " "q" (some 6) "" (fun _ => none)
    (Or.inl (by decide))

/-- Every face that `buildFaceMap` emits with a reference has its four
asset attributes blanked. -/
theorem buildFaceMap_blank (rawMap : Nat → Option RawFace) (n : Int) :
    ∀ face ∈ buildFaceMap rawMap n, face.refFace ≠ none →
      face.label = "" ∧ face.texture = "" ∧ face.bump = "" ∧
      face.icon = "" := by
  intro face hface href
  obtain ⟨i, _, hi⟩ := List.mem_map.mp hface
  cases hr : ((rawMap i).getD ⟨none, "", "", "", ""⟩).refFace with
  | some r =>
    simp only [hr] at hi
    rw [← hi]
    exact ⟨rfl, rfl, rfl, rfl⟩
  | none =>
    simp only [hr] at hi
    rw [← hi] at href
    exact absurd rfl href

/-- A successful save emits a list containing the built definition. -/
theorem saveDice_mem_saved {currentDefs : List EDef} {dice : EDef}
    {newDefs : List EDef} (h : saveDice currentDefs dice = .saved newDefs) :
    dice ∈ newDefs := by
  cases hidx : currentDefs.findIdx? (fun d => d.id == dice.id) with
  | some idx =>
    simp only [saveDice, hidx] at h
    by_cases hq : currentDefs.get? idx = some dice
    · rw [if_pos hq] at h
      exact UpdateOutcome.noConfusion h
    · rw [if_neg hq] at h
      have hnew := (UpdateOutcome.saved.inj h).symm
      have hlt : idx < currentDefs.length :=
        (List.findIdx?_eq_some_iff_findIdx_eq.mp hidx).1
      rw [hnew]
      have hlt' : idx < (currentDefs.set idx dice).length := by
        rw [List.length_set]
        exact hlt
      have hmem : (currentDefs.set idx dice)[idx] ∈ currentDefs.set idx dice :=
        List.getElem_mem hlt'
      rw [List.getElem_set_self hlt'] at hmem
      exact hmem
  | none =>
    simp only [saveDice, hidx] at h
    have hnew := (UpdateOutcome.saved.inj h).symm
    rw [hnew]
    exact List.mem_append_right _ (by simp)

set_option maxHeartbeats 1000000 in
/-- **C9**: every definition written by the editor save path blanks the
`label`, `texture`, `bump` and `icon` attributes of each face whose
`refFace` is set — a referencing face is purely a pointer.  The faceMap is
built by the loop shared verbatim between `_updateObject` and
`_captureFormData` (modelled once as `buildFaceMap`), which substitutes
`""` for all four attributes whenever `refFace != null`, and the
subsequent asset-copy step skips reference faces
(`if (face.refFace != null) continue`). -/
theorem C9_pointer_faces_blanked (currentDefs : List EDef)
    (editingId editingSlug : String) (reservedDenoms : List String)
    (geosFaces : List Int) (name denomination : String)
    (facesInput : Option Int) (geometryInput : String)
    (rawMap : Nat → Option RawFace) (newDefs : List EDef)
    (h : updateObject currentDefs editingId editingSlug reservedDenoms
      geosFaces name denomination facesInput geometryInput rawMap
      = .saved newDefs) :
    ∃ dd ∈ newDefs, dd.id = editingId ∧
      ∀ face ∈ dd.faceMap, face.refFace ≠ none →
        face.label = "" ∧ face.texture = "" ∧ face.bump = "" ∧
        face.icon = "" := by
  simp only [updateObject] at h
  split at h
  · exact UpdateOutcome.noConfusion h
  split at h
  · exact UpdateOutcome.noConfusion h
  split at h
  · exact UpdateOutcome.noConfusion h
  split at h
  · exact UpdateOutcome.noConfusion h
  split at h
  · exact UpdateOutcome.noConfusion h
  split at h
  · exact UpdateOutcome.noConfusion h
  split at h
  · exact UpdateOutcome.noConfusion h
  exact ⟨_, saveDice_mem_saved h, rfl, buildFaceMap_blank rawMap _⟩

/-- Form data of the C9 witness run: face 1 references face 0 and carries
junk in all four asset fields (which the build must blank); faces 2-5 are
absent from the submitted map. -/
def wRawFaces : Nat → Option RawFace := fun i =>
  if i = 0 then some ⟨none, "A", "a.png", "", ""⟩
  else if i = 1 then some ⟨some 0, "x", "y", "z", "w"⟩
  else none

/-- The faceMap the witness run builds. -/
def wFaceMap : List Face :=
  [⟨none, "A", "a.png", "", ""⟩, ⟨some 0, "", "", "", ""⟩,
   ⟨none, "", "", "", ""⟩, ⟨none, "", "", "", ""⟩,
   ⟨none, "", "", "", ""⟩, ⟨none, "", "", "", ""⟩]

theorem resolve_wFaceMap :
    resolveFace wFaceMap (some 1) ∅ = some ⟨none, "A", "a.png", "", ""⟩ := by
  rw [resolveFace_step wFaceMap 1 0 ⟨some 0, "", "", "", ""⟩ ∅ (by decide)
    (by decide) (by decide)]
  exact resolveFace_concrete wFaceMap 0 _ _ (by decide) (by decide)

theorem hasRefLoop_wFaceMap : hasRefLoop wFaceMap = false := by
  simp only [hasRefLoop]
  rw [show wFaceMap.length = 6 from rfl,
    show List.range 6 = [0, 1, 2, 3, 4, 5] from by decide]
  simp only [List.any_cons, List.any_nil, Bool.or_eq_false_iff]
  refine ⟨by decide, ?_, by decide, by decide, by decide, by decide, trivial⟩
  simp only [Nat.cast_one, resolve_wFaceMap]
  decide

/-- The witness form submission passes every validation and saves. -/
theorem updateObject_witness_run :
    updateObject [] "d1" "mydie" [] [] "My Die" "Q" (some 6) "" wRawFaces
      = .saved [⟨"d1", "My Die", "mydie", "q", 6, "standard", wFaceMap⟩] := by
  have hbm : buildFaceMap wRawFaces (faceCountOf (some 6)) = wFaceMap := by
    decide
  have hloop : hasRefLoop (buildFaceMap wRawFaces (faceCountOf (some 6)))
      = false := by
    rw [hbm]
    exact hasRefLoop_wFaceMap
  simp only [updateObject]
  rw [if_neg (show ¬ hasRefLoop (buildFaceMap wRawFaces (faceCountOf
    (some 6))) = true by rw [hloop]; exact Bool.false_ne_true)]
  decide

/-- Witness for C9: the saved definition's referencing face 1 has all four
asset attributes blanked even though the form carried junk in them. -/
theorem C9_pointer_faces_blanked_witness :
    ∃ dd ∈ [(⟨"d1", "My Die", "mydie", "q", 6, "standard", wFaceMap⟩ : EDef)],
      dd.id = "d1" ∧
      ∀ face ∈ dd.faceMap, face.refFace ≠ none →
        face.label = "" ∧ face.texture = "" ∧ face.bump = "" ∧
        face.icon = "" :=
  C9_pointer_faces_blanked [] "d1" "mydie" [] [] "My Die" "Q" (some 6) ""
    wRawFaces _ updateObject_witness_run

end ExotikDices
